import Mathlib

/-!
Verification of the in-memory TTL cache engine of `cache/memory.go`.

The embedding is a faithful translation of the Go source:

* `Item` is the Go struct `cacheItem` (key, opaque value, absolute
  expiration instant, back-reference index into the heap array).
* Go pointers (`*cacheItem`) are modelled as ids into an `arena`
  (a list of items); the key-index map `data` maps keys to ids and the
  heap array `q` is a list of ids, exactly mirroring the sharing in Go:
  mutating an item's `index` field through one alias is visible through
  the others.
* Instants and durations are `Int` (nanoseconds, like `time.Time` /
  `time.Duration`); `time.Now()` is an explicit `now` argument, one per
  operation (each Go operation reads the clock while holding the lock).
* `t.After(u)` is `u < t`, `t.Before(u)` is `t < u`, `t.Add(d)` is `t + d`.
* The cleanup timer `cleanupTick` is modelled by the absolute instant at
  which it is set to fire (`NewTimer(d)` armed at `now` fires at `now + d`).
* The functions `up`, `down`, `heapPush` (`heap.Push`), `heapPop`
  (`heap.Pop`) and `heapRemove` (`heap.Remove`) are the Go standard
  library `container/heap` algorithms instantiated with the repository's
  `expiryHeap` methods (`Len`/`Less`/`Swap`/`Push`/`Pop`); `Less i j` is
  `h[i].expiration.Before(h[j].expiration)`.
-/

namespace MemCache

/-- Go struct `cacheItem`: key, value, absolute expiration instant, and
the item's current position in the heap array (`index`). -/
structure Item (α : Type) where
  key : String
  value : α
  expiration : Int
  index : Int
deriving Repr, DecidableEq

/-- State of one `memoryHelper` instance.  `arena` holds every item ever
allocated (ids are arena positions, modelling Go pointers); `data` is the
key-index map (association list, keys unique); `q` is the `expiryQueue`
heap array; `timer` is the absolute instant at which `cleanupTick` fires. -/
structure MemState (α : Type) where
  arena : List (Item α)
  data : List (String × Nat)
  q : List Nat
  timer : Int
deriving Repr, DecidableEq

/-- Go map read `m.data[key]`. -/
def mapGet : List (String × Nat) → String → Option Nat
  | [], _ => none
  | p :: t, k => if p.1 = k then some p.2 else mapGet t k

/-- Go map write `m.data[key] = item`. -/
def mapSet : List (String × Nat) → String → Nat → List (String × Nat)
  | [], k, id => [(k, id)]
  | p :: t, k, id => if p.1 = k then (k, id) :: t else p :: mapSet t k id

/-- Go map delete `delete(m.data, key)`. -/
def mapDel : List (String × Nat) → String → List (String × Nat)
  | [], _ => []
  | p :: t, k => if p.1 = k then t else p :: mapDel t k

/-- Dereference a pointer and read `.expiration`. -/
def expOf (a : List (Item α)) (id : Nat) : Int :=
  match a[id]? with
  | some it => it.expiration
  | none => 0

/-- Dereference a pointer and read `.key`. -/
def keyOf (a : List (Item α)) (id : Nat) : String :=
  match a[id]? with
  | some it => it.key
  | none => ""

/-- Dereference a pointer and read `.index`. -/
def idxOf (a : List (Item α)) (id : Nat) : Int :=
  match a[id]? with
  | some it => it.index
  | none => 0

/-- Dereference a pointer and read `.value` (none if dangling). -/
def valOf (a : List (Item α)) (id : Nat) : Option α :=
  (a[id]?).map (·.value)

/-- Write through a pointer: update the item with id `id` in place. -/
def modifyId (a : List (Item α)) (id : Nat) (f : Item α → Item α) : List (Item α) :=
  match a[id]? with
  | some it => a.set id (f it)
  | none => a

/-- Swap positions `i` and `j` of the heap array (the id lists). -/
def lswap (l : List Nat) (i j : Nat) : List Nat :=
  (l.set i (l.getD j 0)).set j (l.getD i 0)

/-- Expiration of the item at heap position `i`: the quantity the
`expiryHeap.Less` method compares. -/
def getE (s : MemState α) (i : Nat) : Int :=
  expOf s.arena (s.q.getD i 0)

/-- Go method `expiryHeap.Swap`: swap the array slots, then store the new
positions into the two items' `index` fields (through the pointers, so
every alias sees the update). -/
def hSwap (s : MemState α) (i j : Nat) : MemState α :=
  let q2 := lswap s.q i j
  let a1 := modifyId s.arena (q2.getD i 0) (fun it => { it with index := (i : Int) })
  let a2 := modifyId a1 (q2.getD j 0) (fun it => { it with index := (j : Int) })
  { s with q := q2, arena := a2 }

/-- Go method `expiryHeap.Push`: set `item.index = len`, append. -/
def pushItem (s : MemState α) (id : Nat) : MemState α :=
  { s with
    arena := modifyId s.arena id (fun it => { it with index := (s.q.length : Int) })
    q := s.q ++ [id] }

/-- Go method `expiryHeap.Pop`: take the last element, set its `index`
to `-1`, shrink the array; returns the removed pointer. -/
def popItem (s : MemState α) : MemState α × Nat :=
  let n := s.q.length - 1
  let id := s.q.getD n 0
  ({ s with
     arena := modifyId s.arena id (fun it => { it with index := -1 })
     q := s.q.take n }, id)

/-- Go `container/heap` sift-up loop `up(h, j)`, with an explicit bound
on the number of iterations: each step moves from `j` to its parent
`(j-1)/2 < j`, so `j+1` iterations always suffice.  The loop stops at the
root (`i == j`) or when `!h.Less(j, i)`. -/
def upF : Nat → MemState α → Nat → MemState α
  | 0, s, _ => s
  | fuel + 1, s, j =>
    if j = 0 then s
    else
      if getE s j < getE s ((j - 1) / 2) then
        upF fuel (hSwap s ((j - 1) / 2) j) ((j - 1) / 2)
      else s

/-- The sift-up loop entered at position `j` (iteration bound `j+1`). -/
def up (s : MemState α) (j : Nat) : MemState α := upF (j + 1) s j

/-- Lesser child selected by the `down` loop body: the right child
`2i+2` when it exists and `h.Less(2i+2, 2i+1)`, else the left `2i+1`. -/
def minChild (s : MemState α) (i n : Nat) : Nat :=
  if 2 * i + 2 < n ∧ getE s (2 * i + 2) < getE s (2 * i + 1) then 2 * i + 2
  else 2 * i + 1

/-- Go `container/heap` sift-down loop `down(h, i0, n)`, with an explicit
bound on the number of iterations: each step moves from `i` to a child
`> i` below `n`, so `n - i0` iterations always suffice.  The loop stops
when the left child `2i+1` is outside the prefix `n` or `!h.Less(j, i)`
for the lesser child `j`; the second component is the final position (Go
returns `i > i0`). -/
def downF : Nat → MemState α → Nat → Nat → MemState α × Nat
  | 0, s, i, _ => (s, i)
  | fuel + 1, s, i, n =>
    if n ≤ 2 * i + 1 then (s, i)
    else
      if getE s (minChild s i n) < getE s i then
        downF fuel (hSwap s i (minChild s i n)) (minChild s i n) n
      else (s, i)

/-- The sift-down loop entered at position `i` (iteration bound `n - i`). -/
def down (s : MemState α) (i n : Nat) : MemState α × Nat := downF (n - i) s i n

/-- Go `heap.Push(h, x)`: `h.Push(x); up(h, h.Len()-1)`. -/
def heapPush (s : MemState α) (id : Nat) : MemState α :=
  let s1 := pushItem s id
  up s1 (s1.q.length - 1)

/-- Go `heap.Pop(h)`: `n := h.Len()-1; h.Swap(0, n); down(h, 0, n);
return h.Pop()`. -/
def heapPop (s : MemState α) : MemState α × Nat :=
  let n := s.q.length - 1
  let s1 := hSwap s 0 n
  let s2 := (down s1 0 n).1
  popItem s2

/-- Go `heap.Remove(h, i)`: if `i` is not the last position, swap with
the last, sift the displaced element down, and up when it did not move
down; then `h.Pop()`. -/
def heapRemove (s : MemState α) (i : Nat) : MemState α × Nat :=
  let n := s.q.length - 1
  if i = n then popItem s
  else
    let s1 := hSwap s i n
    let d := down s1 i n
    let s2 := if i < d.2 then d.1 else up d.1 i
    popItem s2

/-- Go constant `1 * time.Hour` in nanoseconds: the idle re-arm period. -/
def hour : Int := 3600000000000

/-- Go method `memoryHelper.resetCleanupTimer` (called with the lock
held): empty queue arms the idle one-hour timer; otherwise the timer is
armed for the root's expiration, firing immediately (`NewTimer(0)`) when
that instant has already passed. -/
def resetCleanupTimer (s : MemState α) (now : Int) : MemState α :=
  if s.q.length = 0 then { s with timer := now + hour }
  else
    let next := getE s 0
    if next < now then { s with timer := now }
    else { s with timer := next }

/-- Go method `memoryHelper.SetVal`: allocate the new item with
`expiration = now + ttl`, remove the old item (found via `.index`) from
the heap when the key exists, store the new pointer in the map, push it
onto the heap, and re-arm the timer only when the new item ended at the
heap root. -/
def SetVal (s : MemState α) (now : Int) (key : String) (value : α)
    (expiration : Int) : MemState α :=
  let expirationTime := now + expiration
  let id := s.arena.length
  let s0 : MemState α :=
    { s with arena := s.arena ++ [⟨key, value, expirationTime, 0⟩] }
  let s1 :=
    match mapGet s0.data key with
    | some oldId => (heapRemove s0 (idxOf s0.arena oldId).toNat).1
    | none => s0
  let s2 := { s1 with data := mapSet s1.data key id }
  let s3 := heapPush s2 id
  if 0 < s3.q.length ∧ s3.q.getD 0 0 = id then resetCleanupTimer s3 now else s3

/-- Go method `memoryHelper.Set`: the string-typed wrapper over `SetVal`. -/
def Set (s : MemState String) (now : Int) (key value : String)
    (expiration : Int) : MemState String :=
  SetVal s now key value expiration

/-- Go method `memoryHelper.GetVal`: `nil` (here `none`) when the key is
absent or when `time.Now().After(expiration)`, i.e. strictly past the
expiration instant; otherwise the stored value. -/
def GetVal (s : MemState α) (now : Int) (key : String) : Option α :=
  match mapGet s.data key with
  | none => none
  | some id =>
    match s.arena[id]? with
    | none => none
    | some it => if it.expiration < now then none else some it.value

/-- Go method `memoryHelper.Get`: returns `""` when `GetVal` yields
`nil`, else the value type-asserted to `string`. -/
def Get (s : MemState String) (now : Int) (key : String) : String :=
  match GetVal s now key with
  | none => ""
  | some v => v

/-- Body of the per-key loop of Go method `memoryHelper.Del`: when the
key is present, remove its item from the heap (via `.index`) and delete
the map entry; absent keys are skipped. -/
def delBody (s : MemState α) (key : String) : MemState α :=
  match mapGet s.data key with
  | some id =>
    let s2 := (heapRemove s (idxOf s.arena id).toNat).1
    { s2 with data := mapDel s2.data key }
  | none => s

/-- Go method `memoryHelper.Del`: run the per-key loop over the argument
list; afterwards the timer is re-armed only when the queue is still
non-empty.  The second component is the returned `error`, always `nil`. -/
def Del (s : MemState α) (now : Int) (keys : List String) :
    MemState α × Option String :=
  let s1 := keys.foldl delBody s
  (if 0 < s1.q.length then resetCleanupTimer s1 now else s1, none)

/-- Go method `memoryHelper.Exists`: counts, over the argument list,
the positions whose key is present and not strictly expired. -/
def ExistsCount (s : MemState α) (now : Int) (keys : List String) : Int :=
  keys.foldl (fun c key =>
    match mapGet s.data key with
    | none => c
    | some id => if expOf s.arena id < now then c else c + 1) 0

/-- Go method `memoryHelper.Expire`: no-op when the key is absent; else
remove the item from the heap, overwrite its expiration with
`now + ttl` in place, push it back, and re-arm the timer. -/
def Expire (s : MemState α) (now : Int) (key : String)
    (expiration : Int) : MemState α :=
  match mapGet s.data key with
  | none => s
  | some id =>
    let s1 := (heapRemove s (idxOf s.arena id).toNat).1
    let s2 := { s1 with
      arena := modifyId s1.arena id
        (fun it => { it with expiration := now + expiration }) }
    let s3 := heapPush s2 id
    resetCleanupTimer s3 now

/-- One iteration bound of `cleanupExpired`'s loop is one pop, so the
loop runs at most `q.length` times; `fuel` makes that bound explicit.
Body: read the root pointer, stop when `now.Before(expiration)`, else
`heap.Pop` and delete the popped item's key from the map. -/
def cleanupLoop (s : MemState α) (now : Int) : Nat → MemState α
  | 0 => s
  | fuel + 1 =>
    if s.q.length = 0 then s
    else
      let id := s.q.getD 0 0
      if now < expOf s.arena id then s
      else
        let s1 := (heapPop s).1
        cleanupLoop { s1 with data := mapDel s1.data (keyOf s1.arena id) } now fuel

/-- Go method `memoryHelper.cleanupExpired` (the reap step, run with the
lock held): pop while the root is due, then re-arm the timer. -/
def cleanupExpired (s : MemState α) (now : Int) : MemState α :=
  resetCleanupTimer (cleanupLoop s now s.q.length) now

/-- State built by `NewMemoryHelper` at instant `now`: empty structures;
`startCleanup` immediately arms the idle timer via `resetCleanupTimer`. -/
def initState (now : Int) : MemState α :=
  { arena := [], data := [], q := [], timer := now + hour }

/-- One mutating facade operation together with the instant at which it
runs (set / delete / renew-expiry / reap). -/
inductive COp (α : Type) where
  | setv (now : Int) (key : String) (value : α) (ttl : Int)
  | del (now : Int) (keys : List String)
  | expire (now : Int) (key : String) (ttl : Int)
  | reap (now : Int)
deriving Repr

/-- Apply one mutating operation. -/
def applyOp (s : MemState α) : COp α → MemState α
  | .setv now k v t => SetVal s now k v t
  | .del now ks => (Del s now ks).1
  | .expire now k t => Expire s now k t
  | .reap now => cleanupExpired s now

/-- Run a sequence of mutating operations from the empty cache created
at instant `t0`. -/
def runOps (t0 : Int) (ops : List (COp α)) : MemState α :=
  ops.foldl applyOp (initState t0)

/-- Keys of the entries currently in the heap, in array order. -/
def heapKeys (s : MemState α) : List String :=
  s.q.map (fun id => keyOf s.arena id)

/-- One position of the `Exists` loop counts when its key is present and
`time.Now().After(expiration)` is false, i.e. the expiration has not
strictly passed. -/
def hit (s : MemState α) (now : Int) (k : String) : Bool :=
  match mapGet s.data k with
  | none => false
  | some id => decide (¬ expOf s.arena id < now)

/-- Min-heap property on the first `n` heap positions: every parent's
expiration is at most its children's. -/
def isHeapN (s : MemState α) (n : Nat) : Prop :=
  ∀ i j, (j = 2 * i + 1 ∨ j = 2 * i + 2) → j < n → getE s i ≤ getE s j

/-- Min-heap property of the whole heap array. -/
def HeapOk (s : MemState α) : Prop := isHeapN s s.q.length

/-- Structural well-formedness: heap ids point into the arena, `index`
back-references are exact, heap ids are distinct, the map's key list is
duplicate-free, and map and heap are in lockstep (a key is in the map
iff its item is in the heap, through matching pointers). -/
structure WF (s : MemState α) : Prop where
  ids : ∀ i, i < s.q.length → s.q.getD i 0 < s.arena.length
  idx : ∀ i, i < s.q.length → idxOf s.arena (s.q.getD i 0) = (i : Int)
  nodup : s.q.Nodup
  dkeys : (s.data.map Prod.fst).Nodup
  d2q : ∀ k id, mapGet s.data k = some id → id ∈ s.q ∧ keyOf s.arena id = k
  q2d : ∀ id, id ∈ s.q → mapGet s.data (keyOf s.arena id) = some id

/-- Full invariant: structural well-formedness plus the heap property. -/
def Inv (s : MemState α) : Prop := WF s ∧ HeapOk s

/-- Heap-only well-formedness (the parts of `WF` that do not mention the
key-index map); it is maintained by every `container/heap` primitive even
in the middle of a facade operation, when map and heap are out of step. -/
structure HQ (s : MemState α) : Prop where
  ids : ∀ i, i < s.q.length → s.q.getD i 0 < s.arena.length
  idx : ∀ i, i < s.q.length → idxOf s.arena (s.q.getD i 0) = (i : Int)
  nodup : s.q.Nodup

/-- The heap primitives only permute the id array and rewrite `index`
fields: map, timer, arena size, queue size, id multiset and every item's
key / value / expiration are untouched. -/
def sameShape (s s' : MemState α) : Prop :=
  s'.data = s.data ∧ s'.timer = s.timer ∧
  s'.arena.length = s.arena.length ∧ s'.q.length = s.q.length ∧
  (∀ id, expOf s'.arena id = expOf s.arena id ∧
    keyOf s'.arena id = keyOf s.arena id ∧ valOf s'.arena id = valOf s.arena id) ∧
  (∀ x, s'.q.count x = s.q.count x)

/-- Sift-up safety: the prefix `n` satisfies the heap property except at
the edge into `j`, and `j`'s children are already at least `j`'s parent. -/
def upSafe (s : MemState α) (n j : Nat) : Prop :=
  (∀ p c, (c = 2 * p + 1 ∨ c = 2 * p + 2) → c < n → c ≠ j → getE s p ≤ getE s c) ∧
  (∀ p c, (j = 2 * p + 1 ∨ j = 2 * p + 2) → (c = 2 * j + 1 ∨ c = 2 * j + 2) →
    c < n → getE s p ≤ getE s c)

/-- Sift-down safety: the prefix `n` satisfies the heap property except at
the edges out of `i`, and `i`'s children are already at least `i`'s parent. -/
def downSafe (s : MemState α) (n i : Nat) : Prop :=
  (∀ p c, (c = 2 * p + 1 ∨ c = 2 * p + 2) → c < n → p ≠ i → getE s p ≤ getE s c) ∧
  (∀ p c, (i = 2 * p + 1 ∨ i = 2 * p + 2) → (c = 2 * i + 1 ∨ c = 2 * i + 2) →
    c < n → getE s p ≤ getE s c)

/-- Weak sift-down safety: also the edge into `i` may be violated (the
state right after `heap.Remove` swaps an arbitrary position with the
last element). -/
def downSafeW (s : MemState α) (n i : Nat) : Prop :=
  (∀ p c, (c = 2 * p + 1 ∨ c = 2 * p + 2) → c < n → p ≠ i → c ≠ i →
    getE s p ≤ getE s c) ∧
  (∀ p c, (i = 2 * p + 1 ∨ i = 2 * p + 2) → (c = 2 * i + 1 ∨ c = 2 * i + 2) →
    c < n → getE s p ≤ getE s c)

end MemCache

namespace MemCache

/-! ### Association-list map lemmas -/

theorem mapGet_mapSet_self (m : List (String × Nat)) (k : String) (id : Nat) :
    mapGet (mapSet m k id) k = some id := by
  induction m with
  | nil => simp [mapGet, mapSet]
  | cons p t ih =>
    by_cases h : p.1 = k <;> simp [mapGet, mapSet, h, ih]

theorem mapGet_mapSet_ne (m : List (String × Nat)) (k k' : String) (id : Nat)
    (h : k' ≠ k) : mapGet (mapSet m k id) k' = mapGet m k' := by
  have hkk : ¬ (k = k') := fun hh => h hh.symm
  induction m with
  | nil => simp [mapGet, mapSet, hkk]
  | cons p t ih =>
    by_cases hp : p.1 = k
    · have hp' : ¬ (p.1 = k') := by rw [hp]; exact hkk
      simp [mapGet, mapSet, hp, hkk, hp']
    · simp only [mapSet, hp, if_false]
      by_cases hp' : p.1 = k' <;> simp [mapGet, hp', ih]

theorem mapGet_mapDel_ne (m : List (String × Nat)) (k k' : String)
    (h : k' ≠ k) : mapGet (mapDel m k) k' = mapGet m k' := by
  induction m with
  | nil => simp [mapDel]
  | cons p t ih =>
    by_cases hp : p.1 = k
    · have hkk : ¬ (k = k') := fun hh => h hh.symm
      simp [mapGet, mapDel, hp, hkk]
    · simp only [mapDel, hp, if_false]
      by_cases hp' : p.1 = k' <;> simp [mapGet, hp', ih]

theorem mapGet_none_iff (m : List (String × Nat)) (k : String) :
    mapGet m k = none ↔ k ∉ m.map Prod.fst := by
  induction m with
  | nil => simp [mapGet]
  | cons p t ih =>
    by_cases hp : p.1 = k
    · simp [mapGet, hp]
    · have hp2 : ¬ (k = p.1) := fun hh => hp hh.symm
      simp [mapGet, hp, hp2, ih]

theorem mapGet_mapDel_self (m : List (String × Nat)) (k : String)
    (h : (m.map Prod.fst).Nodup) : mapGet (mapDel m k) k = none := by
  induction m with
  | nil => simp [mapDel, mapGet]
  | cons p t ih =>
    simp only [List.map_cons, List.nodup_cons] at h
    by_cases hp : p.1 = k
    · rw [mapDel, if_pos hp, mapGet_none_iff]
      exact hp ▸ h.1
    · rw [mapDel, if_neg hp, mapGet, if_neg hp]
      exact ih h.2

theorem mapSet_keys_subset (m : List (String × Nat)) (k : String) (id : Nat) :
    ∀ k', k' ∈ (mapSet m k id).map Prod.fst → k' ∈ m.map Prod.fst ∨ k' = k := by
  induction m with
  | nil =>
    intro k' hk'
    simp only [mapSet, List.map_cons, List.map_nil, List.mem_singleton] at hk'
    exact Or.inr hk'
  | cons p t ih =>
    intro k' hk'
    by_cases hp : p.1 = k
    · rw [mapSet, if_pos hp, List.map_cons, List.mem_cons] at hk'
      rcases hk' with h1 | h1
      · exact Or.inr h1
      · exact Or.inl (by rw [List.map_cons, List.mem_cons]; exact Or.inr h1)
    · rw [mapSet, if_neg hp, List.map_cons, List.mem_cons] at hk'
      rcases hk' with h1 | h1
      · exact Or.inl (by rw [List.map_cons, List.mem_cons]; exact Or.inl h1)
      · rcases ih k' h1 with h2 | h2
        · exact Or.inl (by rw [List.map_cons, List.mem_cons]; exact Or.inr h2)
        · exact Or.inr h2

theorem mapSet_keys_nodup (m : List (String × Nat)) (k : String) (id : Nat)
    (h : (m.map Prod.fst).Nodup) : ((mapSet m k id).map Prod.fst).Nodup := by
  induction m with
  | nil => simp [mapSet]
  | cons p t ih =>
    simp only [List.map_cons, List.nodup_cons] at h
    by_cases hp : p.1 = k
    · rw [mapSet, if_pos hp, List.map_cons, List.nodup_cons]
      exact ⟨hp ▸ h.1, h.2⟩
    · rw [mapSet, if_neg hp, List.map_cons, List.nodup_cons]
      refine ⟨fun hmm => ?_, ih h.2⟩
      rcases mapSet_keys_subset t k id p.1 hmm with h1 | h1
      · exact h.1 h1
      · exact hp h1

theorem mapDel_keys_sublist (m : List (String × Nat)) (k : String) :
    ((mapDel m k).map Prod.fst).Sublist (m.map Prod.fst) := by
  induction m with
  | nil => simp [mapDel]
  | cons p t ih =>
    by_cases hp : p.1 = k
    · rw [mapDel, if_pos hp, List.map_cons]
      exact List.sublist_cons_self _ _
    · rw [mapDel, if_neg hp, List.map_cons, List.map_cons]
      exact ih.cons₂ p.1

theorem mapDel_keys_nodup (m : List (String × Nat)) (k : String)
    (h : (m.map Prod.fst).Nodup) : ((mapDel m k).map Prod.fst).Nodup :=
  (mapDel_keys_sublist m k).nodup h

theorem mapGet_mem_key (m : List (String × Nat)) (k : String) (id : Nat)
    (h : mapGet m k = some id) : k ∈ m.map Prod.fst := by
  by_contra hk
  have h2 := (mapGet_none_iff m k).mpr hk
  simp [h2] at h

/-! ### Arena (pointer) lemmas -/

theorem length_modifyId (a : List (Item α)) (id : Nat) (f : Item α → Item α) :
    (modifyId a id f).length = a.length := by
  unfold modifyId
  cases h : a[id]? with
  | none => rfl
  | some it => simp

theorem getElem?_modifyId (a : List (Item α)) (id : Nat) (f : Item α → Item α)
    (m : Nat) : (modifyId a id f)[m]? = if m = id then (a[id]?).map f else a[m]? := by
  unfold modifyId
  cases h : a[id]? with
  | none =>
    by_cases hm : m = id
    · subst hm; simp [h]
    · simp [hm]
  | some it =>
    have hid : id < a.length := by
      by_contra hc
      rw [List.getElem?_eq_none (by omega)] at h
      cases h
    by_cases hm : m = id
    · subst hm; simp [h, List.getElem?_set_self hid]
    · simp [hm, List.getElem?_set_ne (fun hh => hm hh.symm)]

theorem expOf_modifyIdx (a : List (Item α)) (id : Nat) (x : Int) (m : Nat) :
    expOf (modifyId a id (fun it => { it with index := x })) m = expOf a m := by
  unfold expOf
  rw [getElem?_modifyId]
  by_cases hm : m = id
  · subst hm; cases a[m]? <;> simp
  · simp [hm]

theorem keyOf_modifyIdx (a : List (Item α)) (id : Nat) (x : Int) (m : Nat) :
    keyOf (modifyId a id (fun it => { it with index := x })) m = keyOf a m := by
  unfold keyOf
  rw [getElem?_modifyId]
  by_cases hm : m = id
  · subst hm; cases a[m]? <;> simp
  · simp [hm]

theorem valOf_modifyIdx (a : List (Item α)) (id : Nat) (x : Int) (m : Nat) :
    valOf (modifyId a id (fun it => { it with index := x })) m = valOf a m := by
  unfold valOf
  rw [getElem?_modifyId]
  by_cases hm : m = id
  · subst hm; cases a[m]? <;> simp
  · simp [hm]

theorem idxOf_modifyIdx (a : List (Item α)) (id : Nat) (x : Int) (m : Nat) :
    idxOf (modifyId a id (fun it => { it with index := x })) m
      = if m = id ∧ id < a.length then x else idxOf a m := by
  unfold idxOf
  rw [getElem?_modifyId]
  by_cases hm : m = id
  · subst hm
    by_cases hid : m < a.length
    · rw [List.getElem?_eq_getElem hid]; simp [hid]
    · rw [List.getElem?_eq_none (by omega)]; simp [hid]
  · simp [hm]

theorem expOf_modifyExp (a : List (Item α)) (id : Nat) (e : Int) (m : Nat) :
    expOf (modifyId a id (fun it => { it with expiration := e })) m
      = if m = id ∧ id < a.length then e else expOf a m := by
  unfold expOf
  rw [getElem?_modifyId]
  by_cases hm : m = id
  · subst hm
    by_cases hid : m < a.length
    · rw [List.getElem?_eq_getElem hid]; simp [hid]
    · rw [List.getElem?_eq_none (by omega)]; simp [hid]
  · simp [hm]

theorem keyOf_modifyExp (a : List (Item α)) (id : Nat) (e : Int) (m : Nat) :
    keyOf (modifyId a id (fun it => { it with expiration := e })) m = keyOf a m := by
  unfold keyOf
  rw [getElem?_modifyId]
  by_cases hm : m = id
  · subst hm; cases a[m]? <;> simp
  · simp [hm]

theorem valOf_modifyExp (a : List (Item α)) (id : Nat) (e : Int) (m : Nat) :
    valOf (modifyId a id (fun it => { it with expiration := e })) m = valOf a m := by
  unfold valOf
  rw [getElem?_modifyId]
  by_cases hm : m = id
  · subst hm; cases a[m]? <;> simp
  · simp [hm]

theorem idxOf_modifyExp (a : List (Item α)) (id : Nat) (e : Int) (m : Nat) :
    idxOf (modifyId a id (fun it => { it with expiration := e })) m = idxOf a m := by
  unfold idxOf
  rw [getElem?_modifyId]
  by_cases hm : m = id
  · subst hm; cases a[m]? <;> simp
  · simp [hm]

theorem expOf_append (a : List (Item α)) (it : Item α) (m : Nat) :
    expOf (a ++ [it]) m = if m = a.length then it.expiration else expOf a m := by
  unfold expOf
  rw [List.getElem?_append]
  by_cases hm : m < a.length
  · simp [hm, Nat.ne_of_lt hm]
  · by_cases hm2 : m = a.length
    · subst hm2; simp
    · rw [if_neg hm, if_neg hm2, List.getElem?_eq_none (by simp; omega),
        List.getElem?_eq_none (by omega)]

theorem keyOf_append (a : List (Item α)) (it : Item α) (m : Nat) :
    keyOf (a ++ [it]) m = if m = a.length then it.key else keyOf a m := by
  unfold keyOf
  rw [List.getElem?_append]
  by_cases hm : m < a.length
  · simp [hm, Nat.ne_of_lt hm]
  · by_cases hm2 : m = a.length
    · subst hm2; simp
    · rw [if_neg hm, if_neg hm2, List.getElem?_eq_none (by simp; omega),
        List.getElem?_eq_none (by omega)]

theorem valOf_append (a : List (Item α)) (it : Item α) (m : Nat) :
    valOf (a ++ [it]) m = if m = a.length then some it.value else valOf a m := by
  unfold valOf
  rw [List.getElem?_append]
  by_cases hm : m < a.length
  · simp [hm, Nat.ne_of_lt hm]
  · by_cases hm2 : m = a.length
    · subst hm2; simp
    · rw [if_neg hm, if_neg hm2, List.getElem?_eq_none (by simp; omega),
        List.getElem?_eq_none (by omega)]

theorem idxOf_append (a : List (Item α)) (it : Item α) (m : Nat) :
    idxOf (a ++ [it]) m = if m = a.length then it.index else idxOf a m := by
  unfold idxOf
  rw [List.getElem?_append]
  by_cases hm : m < a.length
  · simp [hm, Nat.ne_of_lt hm]
  · by_cases hm2 : m = a.length
    · subst hm2; simp
    · rw [if_neg hm, if_neg hm2, List.getElem?_eq_none (by simp; omega),
        List.getElem?_eq_none (by omega)]

/-! ### Swap lemmas on the id array -/

theorem length_lswap (l : List Nat) (i j : Nat) :
    (lswap l i j).length = l.length := by
  simp [lswap]

theorem getD_lswap (l : List Nat) (i j : Nat) (hi : i < l.length)
    (hj : j < l.length) (m : Nat) :
    (lswap l i j).getD m 0
      = if m = j then l.getD i 0 else if m = i then l.getD j 0 else l.getD m 0 := by
  unfold lswap
  rw [List.getD_eq_getElem?_getD, List.getD_eq_getElem?_getD,
    List.getD_eq_getElem?_getD, List.getD_eq_getElem?_getD, List.getElem?_set]
  by_cases hmj : m = j
  · simp [hmj, hj, List.length_set]
  · rw [if_neg (fun hh => hmj hh.symm), List.getElem?_set]
    by_cases hmi : m = i
    · have hij : ¬ (i = j) := by rw [← hmi]; exact hmj
      simp [hmi, hi, hij]
    · rw [if_neg (fun hh => hmi hh.symm), if_neg hmj, if_neg hmi]

theorem count_set_add (l : List Nat) (i : Nat) (a x : Nat) (h : i < l.length) :
    (l.set i a).count x + (if l.getD i 0 = x then 1 else 0)
      = l.count x + (if a = x then 1 else 0) := by
  induction l generalizing i with
  | nil => simp at h
  | cons y t ih =>
    cases i with
    | zero =>
      simp only [List.set_cons_zero, List.getD_cons_zero, List.count_cons]
      by_cases hy : y = x <;> by_cases ha : a = x <;> simp [hy, ha]
    | succ i =>
      have hlen : i < t.length := by simpa using h
      simp only [List.set_cons_succ, List.getD_cons_succ, List.count_cons]
      have := ih i hlen
      simp only [List.getD_eq_getElem?_getD] at this ⊢
      by_cases hy : y = x <;> simp [hy] <;> omega

theorem count_lswap (l : List Nat) (i j x : Nat) (hi : i < l.length)
    (hj : j < l.length) : (lswap l i j).count x = l.count x := by
  unfold lswap
  have h1 := count_set_add l i (l.getD j 0) x hi
  have h2 := count_set_add (l.set i (l.getD j 0)) j (l.getD i 0) x
    (by simpa using hj)
  have h3 : (l.set i (l.getD j 0)).getD j 0 = l.getD j 0 := by
    rw [List.getD_eq_getElem?_getD, List.getElem?_set]
    by_cases hij : i = j
    · simp [hij, hj]
    · rw [if_neg hij, ← List.getD_eq_getElem?_getD]
  rw [h3] at h2
  by_cases e1 : l.getD i 0 = x <;> by_cases e2 : l.getD j 0 = x <;>
    simp [e1, e2] at h1 h2 ⊢ <;> omega

theorem mem_lswap (l : List Nat) (i j x : Nat) (hi : i < l.length)
    (hj : j < l.length) : x ∈ lswap l i j ↔ x ∈ l := by
  rw [← List.count_pos_iff, ← List.count_pos_iff, count_lswap l i j x hi hj]

theorem nodup_lswap (l : List Nat) (i j : Nat) (hi : i < l.length)
    (hj : j < l.length) (h : l.Nodup) : (lswap l i j).Nodup := by
  rw [List.nodup_iff_count_le_one] at h ⊢
  intro a
  rw [count_lswap l i j a hi hj]
  exact h a

/-! ### Swap method lemmas -/

theorem getD_ne_of_nodup (l : List Nat) (m m' : Nat) (hm : m < l.length)
    (hm' : m' < l.length) (hne : m ≠ m') (h : l.Nodup) :
    l.getD m 0 ≠ l.getD m' 0 := by
  rw [List.getD_eq_getElem _ _ hm, List.getD_eq_getElem _ _ hm']
  intro hc
  exact hne (h.getElem_inj_iff.mp hc)

theorem hSwap_data (s : MemState α) (i j : Nat) : (hSwap s i j).data = s.data := rfl

theorem hSwap_timer (s : MemState α) (i j : Nat) : (hSwap s i j).timer = s.timer := rfl

theorem hSwap_q (s : MemState α) (i j : Nat) : (hSwap s i j).q = lswap s.q i j := rfl

theorem hSwap_arena_length (s : MemState α) (i j : Nat) :
    (hSwap s i j).arena.length = s.arena.length := by
  simp [hSwap, length_modifyId]

theorem hSwap_expOf (s : MemState α) (i j : Nat) (id : Nat) :
    expOf (hSwap s i j).arena id = expOf s.arena id := by
  simp [hSwap, expOf_modifyIdx]

theorem hSwap_keyOf (s : MemState α) (i j : Nat) (id : Nat) :
    keyOf (hSwap s i j).arena id = keyOf s.arena id := by
  simp [hSwap, keyOf_modifyIdx]

theorem hSwap_valOf (s : MemState α) (i j : Nat) (id : Nat) :
    valOf (hSwap s i j).arena id = valOf s.arena id := by
  simp [hSwap, valOf_modifyIdx]

theorem hSwap_sameShape (s : MemState α) (i j : Nat) (hi : i < s.q.length)
    (hj : j < s.q.length) : sameShape s (hSwap s i j) :=
  ⟨rfl, rfl, hSwap_arena_length s i j, length_lswap s.q i j,
    fun id => ⟨hSwap_expOf s i j id, hSwap_keyOf s i j id, hSwap_valOf s i j id⟩,
    fun x => count_lswap s.q i j x hi hj⟩

theorem getE_hSwap (s : MemState α) (i j : Nat) (hi : i < s.q.length)
    (hj : j < s.q.length) (m : Nat) :
    getE (hSwap s i j) m
      = if m = j then getE s i else if m = i then getE s j else getE s m := by
  unfold getE
  rw [show (hSwap s i j).q = lswap s.q i j from rfl, hSwap_expOf,
    getD_lswap s.q i j hi hj m]
  by_cases hmj : m = j
  · simp [hmj]
  · by_cases hmi : m = i
    · have hij : ¬ (i = j) := fun hh => hmj (hmi.trans hh)
      simp [hmi, hmj, hij]
    · simp [hmi, hmj]

theorem lswap_getD_i (l : List Nat) (i j : Nat) (hi : i < l.length)
    (hj : j < l.length) : (lswap l i j).getD i 0 = l.getD j 0 := by
  rw [getD_lswap l i j hi hj i]
  by_cases hij : i = j
  · rw [if_pos hij, hij]
  · rw [if_neg hij, if_pos rfl]

theorem lswap_getD_j (l : List Nat) (i j : Nat) (hi : i < l.length)
    (hj : j < l.length) : (lswap l i j).getD j 0 = l.getD i 0 := by
  rw [getD_lswap l i j hi hj j, if_pos rfl]

theorem hSwap_idxOf (s : MemState α) (i j : Nat) (hi : i < s.q.length)
    (hj : j < s.q.length) (x : Nat) :
    idxOf (hSwap s i j).arena x
      = if x = s.q.getD i 0 ∧ s.q.getD i 0 < s.arena.length then (j : Int)
        else if x = s.q.getD j 0 ∧ s.q.getD j 0 < s.arena.length then (i : Int)
        else idxOf s.arena x := by
  show idxOf (modifyId (modifyId s.arena ((lswap s.q i j).getD i 0)
      (fun it => { it with index := (i : Int) })) ((lswap s.q i j).getD j 0)
      (fun it => { it with index := (j : Int) })) x = _
  rw [idxOf_modifyIdx, length_modifyId, idxOf_modifyIdx,
    lswap_getD_i s.q i j hi hj, lswap_getD_j s.q i j hi hj]

theorem hSwap_HQ (s : MemState α) (i j : Nat) (hi : i < s.q.length)
    (hj : j < s.q.length) (h : HQ s) : HQ (hSwap s i j) := by
  refine ⟨?_, ?_, ?_⟩
  · intro m hm
    rw [hSwap_arena_length]
    rw [hSwap_q, length_lswap] at hm
    rw [hSwap_q, getD_lswap s.q i j hi hj m]
    by_cases hmj : m = j
    · simpa [hmj] using h.ids i hi
    · by_cases hmi : m = i
      · have hij : ¬ (i = j) := fun hh => hmj (hmi.trans hh)
        simpa [hmi, hmj, hij] using h.ids j hj
      · simpa [hmi, hmj] using h.ids m hm
  · intro m hm
    rw [hSwap_q, length_lswap] at hm
    rw [hSwap_q, getD_lswap s.q i j hi hj m, hSwap_idxOf s i j hi hj]
    by_cases hmj : m = j
    · rw [if_pos hmj, if_pos ⟨rfl, h.ids i hi⟩, hmj]
    · by_cases hmi : m = i
      · rw [if_neg hmj, if_pos hmi]
        have hij : i ≠ j := fun hh => hmj (hmi.trans hh)
        have hne : s.q.getD j 0 ≠ s.q.getD i 0 :=
          getD_ne_of_nodup s.q j i hj hi (fun hh => hij hh.symm) h.nodup
        rw [if_neg (fun hc => hne hc.1), if_pos ⟨rfl, h.ids j hj⟩, hmi]
      · rw [if_neg hmj, if_neg hmi]
        have hne1 : s.q.getD m 0 ≠ s.q.getD i 0 :=
          getD_ne_of_nodup s.q m i hm hi hmi h.nodup
        have hne2 : s.q.getD m 0 ≠ s.q.getD j 0 :=
          getD_ne_of_nodup s.q m j hm hj hmj h.nodup
        rw [if_neg (fun hc => hne1 hc.1), if_neg (fun hc => hne2 hc.1)]
        exact h.idx m hm
  · rw [hSwap_q]
    exact nodup_lswap s.q i j hi hj h.nodup

/-! ### Sift-loop structural lemmas -/

theorem sameShape_refl (s : MemState α) : sameShape s s :=
  ⟨rfl, rfl, rfl, rfl, fun _ => ⟨rfl, rfl, rfl⟩, fun _ => rfl⟩

theorem sameShape_trans {s1 s2 s3 : MemState α} (h1 : sameShape s1 s2)
    (h2 : sameShape s2 s3) : sameShape s1 s3 := by
  obtain ⟨a1, b1, c1, d1, e1, f1⟩ := h1
  obtain ⟨a2, b2, c2, d2, e2, f2⟩ := h2
  refine ⟨a2.trans a1, b2.trans b1, c2.trans c1, d2.trans d1, fun id => ?_,
    fun x => (f2 x).trans (f1 x)⟩
  exact ⟨((e2 id).1).trans (e1 id).1, ((e2 id).2.1).trans (e1 id).2.1,
    ((e2 id).2.2).trans (e1 id).2.2⟩

theorem minChild_gt (s : MemState α) (i n : Nat) : i < minChild s i n := by
  unfold minChild; split <;> omega

theorem minChild_lt (s : MemState α) (i n : Nat) (h : ¬ n ≤ 2 * i + 1) :
    minChild s i n < n := by
  unfold minChild; split <;> omega

theorem minChild_cases (s : MemState α) (i n : Nat) :
    minChild s i n = 2 * i + 1 ∨ minChild s i n = 2 * i + 2 := by
  unfold minChild; split
  · exact Or.inr rfl
  · exact Or.inl rfl

theorem getE_minChild_le (s : MemState α) (i n c : Nat)
    (hc : c = 2 * i + 1 ∨ c = 2 * i + 2) (hcn : c < n) :
    getE s (minChild s i n) ≤ getE s c := by
  unfold minChild
  rcases hc with hc | hc <;> subst hc
  · split
    · next h => exact le_of_lt h.2
    · exact le_refl _
  · split
    · exact le_refl _
    · next h =>
        rcases not_and_or.mp h with h2 | h2
        · exact absurd hcn h2
        · exact le_of_not_lt h2

theorem upF_succ (fuel : Nat) (s : MemState α) (j : Nat) :
    upF (fuel + 1) s j =
      if j = 0 then s
      else if getE s j < getE s ((j - 1) / 2) then
        upF fuel (hSwap s ((j - 1) / 2) j) ((j - 1) / 2)
      else s := rfl

theorem downF_succ (fuel : Nat) (s : MemState α) (i n : Nat) :
    downF (fuel + 1) s i n =
      if n ≤ 2 * i + 1 then (s, i)
      else if getE s (minChild s i n) < getE s i then
        downF fuel (hSwap s i (minChild s i n)) (minChild s i n) n
      else (s, i) := rfl

theorem upF_congr : ∀ (f1 f2 : Nat) (s : MemState α) (j : Nat),
    j < f1 → j < f2 → upF f1 s j = upF f2 s j := by
  intro f1
  induction f1 with
  | zero =>
    intro f2 s j h1 _
    exact absurd h1 (Nat.not_lt_zero j)
  | succ f1 ih =>
    intro f2 s j h1 h2
    cases f2 with
    | zero => exact absurd h2 (Nat.not_lt_zero j)
    | succ f2 =>
      rw [upF_succ f1 s j, upF_succ f2 s j]
      by_cases hj : j = 0
      · rw [if_pos hj, if_pos hj]
      · rw [if_neg hj, if_neg hj]
        by_cases hc : getE s j < getE s ((j - 1) / 2)
        · rw [if_pos hc, if_pos hc]
          exact ih f2 (hSwap s ((j - 1) / 2) j) ((j - 1) / 2) (by omega) (by omega)
        · rw [if_neg hc, if_neg hc]

theorem downF_congr : ∀ (f1 f2 : Nat) (s : MemState α) (i n : Nat),
    n - i ≤ f1 → n - i ≤ f2 → downF f1 s i n = downF f2 s i n := by
  intro f1
  induction f1 with
  | zero =>
    intro f2 s i n h1 _
    have hst : n ≤ 2 * i + 1 := by omega
    cases f2 with
    | zero => rfl
    | succ f2 =>
      rw [downF_succ f2 s i n, if_pos hst]
      rfl
  | succ f1 ih =>
    intro f2 s i n h1 h2
    cases f2 with
    | zero =>
      have hst : n ≤ 2 * i + 1 := by omega
      rw [downF_succ f1 s i n, if_pos hst]
      rfl
    | succ f2 =>
      rw [downF_succ f1 s i n, downF_succ f2 s i n]
      by_cases hst : n ≤ 2 * i + 1
      · rw [if_pos hst, if_pos hst]
      · rw [if_neg hst, if_neg hst]
        by_cases hc : getE s (minChild s i n) < getE s i
        · rw [if_pos hc, if_pos hc]
          have hmc := minChild_gt s i n
          have hmcn := minChild_lt s i n hst
          exact ih f2 (hSwap s i (minChild s i n)) (minChild s i n) n (by omega) (by omega)
        · rw [if_neg hc, if_neg hc]

theorem up_zero (s : MemState α) : up s 0 = s := rfl

theorem up_step (s : MemState α) (j : Nat) (h1 : ¬ j = 0)
    (h2 : getE s j < getE s ((j - 1) / 2)) :
    up s j = up (hSwap s ((j - 1) / 2) j) ((j - 1) / 2) := by
  show upF (j + 1) s j = upF ((j - 1) / 2 + 1) (hSwap s ((j - 1) / 2) j) ((j - 1) / 2)
  rw [upF_succ j s j, if_neg h1, if_pos h2]
  exact upF_congr j ((j - 1) / 2 + 1) (hSwap s ((j - 1) / 2) j) ((j - 1) / 2)
    (by omega) (by omega)

theorem up_stop (s : MemState α) (j : Nat) (h1 : ¬ j = 0)
    (h2 : ¬ getE s j < getE s ((j - 1) / 2)) : up s j = s := by
  show upF (j + 1) s j = s
  rw [upF_succ j s j, if_neg h1, if_neg h2]

theorem down_stop1 (s : MemState α) (i n : Nat) (h : n ≤ 2 * i + 1) :
    down s i n = (s, i) := by
  show downF (n - i) s i n = (s, i)
  cases hf : n - i with
  | zero => rfl
  | succ f => rw [downF_succ f s i n, if_pos h]

theorem down_step (s : MemState α) (i n : Nat) (h1 : ¬ n ≤ 2 * i + 1)
    (h2 : getE s (minChild s i n) < getE s i) :
    down s i n = down (hSwap s i (minChild s i n)) (minChild s i n) n := by
  have hmc := minChild_gt s i n
  have hmcn := minChild_lt s i n h1
  show downF (n - i) s i n
    = downF (n - minChild s i n) (hSwap s i (minChild s i n)) (minChild s i n) n
  cases hf : n - i with
  | zero => exact absurd hf (by omega)
  | succ f =>
    rw [downF_succ f s i n, if_neg h1, if_pos h2]
    exact downF_congr f (n - minChild s i n) (hSwap s i (minChild s i n))
      (minChild s i n) n (by omega) (le_refl _)

theorem down_stop2 (s : MemState α) (i n : Nat) (h1 : ¬ n ≤ 2 * i + 1)
    (h2 : ¬ getE s (minChild s i n) < getE s i) : down s i n = (s, i) := by
  show downF (n - i) s i n = (s, i)
  cases hf : n - i with
  | zero => rfl
  | succ f => rw [downF_succ f s i n, if_neg h1, if_neg h2]

theorem up_sameShape (s : MemState α) (j : Nat) :
    j < s.q.length → sameShape s (up s j) := by
  have main : ∀ (fuel : Nat) (s : MemState α) (j : Nat),
      j < s.q.length → sameShape s (upF fuel s j) := by
    intro fuel
    induction fuel with
    | zero =>
      intro s j _
      exact sameShape_refl s
    | succ fuel ih =>
      intro s j hj
      rw [upF_succ fuel s j]
      by_cases h1 : j = 0
      · rw [if_pos h1]
        exact sameShape_refl s
      · rw [if_neg h1]
        by_cases h2 : getE s j < getE s ((j - 1) / 2)
        · rw [if_pos h2]
          have hp : (j - 1) / 2 < s.q.length := by omega
          refine sameShape_trans (hSwap_sameShape s _ j hp hj)
            (ih (hSwap s ((j - 1) / 2) j) ((j - 1) / 2) ?_)
          rw [hSwap_q, length_lswap]
          omega
        · rw [if_neg h2]
          exact sameShape_refl s
  exact fun hj => main (j + 1) s j hj

theorem up_HQ (s : MemState α) (j : Nat) :
    j < s.q.length → HQ s → HQ (up s j) := by
  have main : ∀ (fuel : Nat) (s : MemState α) (j : Nat),
      j < s.q.length → HQ s → HQ (upF fuel s j) := by
    intro fuel
    induction fuel with
    | zero =>
      intro s j _ h
      exact h
    | succ fuel ih =>
      intro s j hj h
      rw [upF_succ fuel s j]
      by_cases h1 : j = 0
      · rw [if_pos h1]
        exact h
      · rw [if_neg h1]
        by_cases h2 : getE s j < getE s ((j - 1) / 2)
        · rw [if_pos h2]
          have hp : (j - 1) / 2 < s.q.length := by omega
          refine ih (hSwap s ((j - 1) / 2) j) ((j - 1) / 2) ?_
            (hSwap_HQ s _ j hp hj h)
          rw [hSwap_q, length_lswap]
          omega
        · rw [if_neg h2]
          exact h
  exact fun hj h => main (j + 1) s j hj h

theorem up_getD_high (s : MemState α) (j : Nat) :
    j < s.q.length → ∀ m, j < m → (up s j).q.getD m 0 = s.q.getD m 0 := by
  have main : ∀ (fuel : Nat) (s : MemState α) (j : Nat),
      j < s.q.length → ∀ m, j < m → (upF fuel s j).q.getD m 0 = s.q.getD m 0 := by
    intro fuel
    induction fuel with
    | zero =>
      intro s j _ m _
      rfl
    | succ fuel ih =>
      intro s j hj m hm
      rw [upF_succ fuel s j]
      by_cases h1 : j = 0
      · rw [if_pos h1]
      · rw [if_neg h1]
        by_cases h2 : getE s j < getE s ((j - 1) / 2)
        · rw [if_pos h2]
          have hp : (j - 1) / 2 < s.q.length := by omega
          rw [ih (hSwap s ((j - 1) / 2) j) ((j - 1) / 2)
              (by rw [hSwap_q, length_lswap]; omega) m (by omega), hSwap_q,
            getD_lswap s.q _ j hp hj m, if_neg (by omega), if_neg (by omega)]
        · rw [if_neg h2]
  exact fun hj m hm => main (j + 1) s j hj m hm

theorem down_sameShape (s : MemState α) (i n : Nat) :
    n ≤ s.q.length → sameShape s (down s i n).1 := by
  have main : ∀ (fuel : Nat) (s : MemState α) (i n : Nat),
      n ≤ s.q.length → sameShape s (downF fuel s i n).1 := by
    intro fuel
    induction fuel with
    | zero =>
      intro s i n _
      exact sameShape_refl s
    | succ fuel ih =>
      intro s i n hn
      rw [downF_succ fuel s i n]
      by_cases h1 : n ≤ 2 * i + 1
      · rw [if_pos h1]
        exact sameShape_refl s
      · rw [if_neg h1]
        by_cases h2 : getE s (minChild s i n) < getE s i
        · rw [if_pos h2]
          have hi : i < s.q.length := by omega
          have hmc : minChild s i n < s.q.length :=
            lt_of_lt_of_le (minChild_lt s i n h1) hn
          refine sameShape_trans (hSwap_sameShape s i _ hi hmc)
            (ih (hSwap s i (minChild s i n)) (minChild s i n) n ?_)
          rw [hSwap_q, length_lswap]
          exact hn
        · rw [if_neg h2]
          exact sameShape_refl s
  exact fun hn => main (n - i) s i n hn

theorem down_HQ (s : MemState α) (i n : Nat) :
    n ≤ s.q.length → HQ s → HQ (down s i n).1 := by
  have main : ∀ (fuel : Nat) (s : MemState α) (i n : Nat),
      n ≤ s.q.length → HQ s → HQ (downF fuel s i n).1 := by
    intro fuel
    induction fuel with
    | zero =>
      intro s i n _ hh
      exact hh
    | succ fuel ih =>
      intro s i n hn hh
      rw [downF_succ fuel s i n]
      by_cases h1 : n ≤ 2 * i + 1
      · rw [if_pos h1]
        exact hh
      · rw [if_neg h1]
        by_cases h2 : getE s (minChild s i n) < getE s i
        · rw [if_pos h2]
          have hi : i < s.q.length := by omega
          have hmc : minChild s i n < s.q.length :=
            lt_of_lt_of_le (minChild_lt s i n h1) hn
          refine ih (hSwap s i (minChild s i n)) (minChild s i n) n ?_
            (hSwap_HQ s i _ hi hmc hh)
          rw [hSwap_q, length_lswap]
          exact hn
        · rw [if_neg h2]
          exact hh
  exact fun hn hh => main (n - i) s i n hn hh

theorem down_getD_high (s : MemState α) (i n : Nat) :
    n ≤ s.q.length → ∀ m, n ≤ m → (down s i n).1.q.getD m 0 = s.q.getD m 0 := by
  have main : ∀ (fuel : Nat) (s : MemState α) (i n : Nat),
      n ≤ s.q.length → ∀ m, n ≤ m → (downF fuel s i n).1.q.getD m 0 = s.q.getD m 0 := by
    intro fuel
    induction fuel with
    | zero =>
      intro s i n _ m _
      rfl
    | succ fuel ih =>
      intro s i n hn m hm
      rw [downF_succ fuel s i n]
      by_cases h1 : n ≤ 2 * i + 1
      · rw [if_pos h1]
      · rw [if_neg h1]
        by_cases h2 : getE s (minChild s i n) < getE s i
        · rw [if_pos h2]
          have hi : i < s.q.length := by omega
          have hmc : minChild s i n < s.q.length :=
            lt_of_lt_of_le (minChild_lt s i n h1) hn
          have hmcn := minChild_lt s i n h1
          rw [ih (hSwap s i (minChild s i n)) (minChild s i n) n
              (by rw [hSwap_q, length_lswap]; exact hn) m hm, hSwap_q,
            getD_lswap s.q i _ hi hmc m, if_neg (by omega), if_neg (by omega)]
        · rw [if_neg h2]
  exact fun hn m hm => main (n - i) s i n hn m hm

theorem down_snd_ge (s : MemState α) (i n : Nat) : i ≤ (down s i n).2 := by
  have main : ∀ (fuel : Nat) (s : MemState α) (i n : Nat), i ≤ (downF fuel s i n).2 := by
    intro fuel
    induction fuel with
    | zero =>
      intro s i n
      exact le_refl i
    | succ fuel ih =>
      intro s i n
      rw [downF_succ fuel s i n]
      by_cases h1 : n ≤ 2 * i + 1
      · rw [if_pos h1]
      · rw [if_neg h1]
        by_cases h2 : getE s (minChild s i n) < getE s i
        · rw [if_pos h2]
          exact le_of_lt (lt_of_lt_of_le (minChild_gt s i n)
            (ih (hSwap s i (minChild s i n)) (minChild s i n) n))
        · rw [if_neg h2]
  exact main (n - i) s i n

/-! ### Push / pop method lemmas -/

theorem getD_append_last (l : List Nat) (x : Nat) :
    (l ++ [x]).getD l.length 0 = x := by
  rw [List.getD_eq_getElem?_getD, List.getElem?_append, if_neg (by omega)]
  simp

theorem getD_take (l : List Nat) (n m : Nat) (h : m < n) :
    (l.take n).getD m 0 = l.getD m 0 := by
  rw [List.getD_eq_getElem?_getD, List.getD_eq_getElem?_getD, List.getElem?_take,
    if_pos h]

theorem count_snoc (l : List Nat) (id x : Nat) :
    (l ++ [id]).count x = l.count x + (if id = x then 1 else 0) := by
  rw [List.count_append]
  by_cases h : id = x <;> simp [h, List.count_cons]

theorem drop_last_eq (l : List Nat) (h : 0 < l.length) :
    l.drop (l.length - 1) = [l.getD (l.length - 1) 0] := by
  induction l with
  | nil => simp at h
  | cons y t ih =>
    cases t with
    | nil => simp [List.getD]
    | cons z u =>
      have h2 : 0 < (z :: u).length := by simp
      have h3 : (y :: z :: u).length - 1 = ((z :: u).length - 1) + 1 := by
        simp
      rw [h3, List.drop_succ_cons, List.getD_cons_succ]
      exact ih h2

theorem count_take_last (l : List Nat) (x : Nat) (h : 0 < l.length) :
    (l.take (l.length - 1)).count x
      + (if l.getD (l.length - 1) 0 = x then 1 else 0) = l.count x := by
  conv_rhs => rw [← List.take_append_drop (l.length - 1) l]
  rw [List.count_append, drop_last_eq l h]
  by_cases hx : l.getD (l.length - 1) 0 = x <;> simp [hx, List.count_cons]

theorem pushItem_q (s : MemState α) (id : Nat) :
    (pushItem s id).q = s.q ++ [id] := rfl

theorem pushItem_data (s : MemState α) (id : Nat) :
    (pushItem s id).data = s.data := rfl

theorem pushItem_timer (s : MemState α) (id : Nat) :
    (pushItem s id).timer = s.timer := rfl

theorem pushItem_len (s : MemState α) (id : Nat) :
    (pushItem s id).q.length = s.q.length + 1 := by
  rw [pushItem_q]; simp

theorem pushItem_arena_length (s : MemState α) (id : Nat) :
    (pushItem s id).arena.length = s.arena.length := length_modifyId _ _ _

theorem pushItem_expOf (s : MemState α) (id m : Nat) :
    expOf (pushItem s id).arena m = expOf s.arena m := expOf_modifyIdx _ _ _ _

theorem pushItem_keyOf (s : MemState α) (id m : Nat) :
    keyOf (pushItem s id).arena m = keyOf s.arena m := keyOf_modifyIdx _ _ _ _

theorem pushItem_valOf (s : MemState α) (id m : Nat) :
    valOf (pushItem s id).arena m = valOf s.arena m := valOf_modifyIdx _ _ _ _

theorem pushItem_count (s : MemState α) (id x : Nat) :
    (pushItem s id).q.count x = s.q.count x + (if id = x then 1 else 0) := by
  rw [pushItem_q, count_snoc]

theorem pushItem_HQ (s : MemState α) (id : Nat) (hid : id < s.arena.length)
    (hnotin : id ∉ s.q) (h : HQ s) : HQ (pushItem s id) := by
  refine ⟨?_, ?_, ?_⟩
  · intro m hm
    rw [pushItem_len] at hm
    rw [pushItem_arena_length, pushItem_q]
    by_cases hml : m < s.q.length
    · rw [List.getD_append _ _ _ _ hml]
      exact h.ids m hml
    · have hme : m = s.q.length := by omega
      rw [hme, getD_append_last]
      exact hid
  · intro m hm
    rw [pushItem_len] at hm
    rw [pushItem_q]
    show idxOf (modifyId s.arena id _) _ = _
    rw [idxOf_modifyIdx]
    by_cases hml : m < s.q.length
    · rw [List.getD_append _ _ _ _ hml]
      have hne : s.q.getD m 0 ≠ id := by
        intro hc
        refine hnotin ?_
        rw [← hc, List.getD_eq_getElem _ _ hml]
        exact List.getElem_mem hml
      rw [if_neg (fun hc => hne hc.1)]
      exact h.idx m hml
    · have hme : m = s.q.length := by omega
      rw [hme, getD_append_last, if_pos ⟨rfl, hid⟩]
  · rw [pushItem_q]
    simp only [List.nodup_append, List.nodup_singleton]
    exact ⟨h.nodup, trivial, by simpa [List.disjoint_singleton] using hnotin⟩

theorem popItem_q (s : MemState α) :
    (popItem s).1.q = s.q.take (s.q.length - 1) := rfl

theorem popItem_snd (s : MemState α) :
    (popItem s).2 = s.q.getD (s.q.length - 1) 0 := rfl

theorem popItem_data (s : MemState α) : (popItem s).1.data = s.data := rfl

theorem popItem_timer (s : MemState α) : (popItem s).1.timer = s.timer := rfl

theorem popItem_len (s : MemState α) :
    (popItem s).1.q.length = s.q.length - 1 := by
  rw [popItem_q]; simp

theorem popItem_arena_length (s : MemState α) :
    (popItem s).1.arena.length = s.arena.length := length_modifyId _ _ _

theorem popItem_expOf (s : MemState α) (m : Nat) :
    expOf (popItem s).1.arena m = expOf s.arena m := expOf_modifyIdx _ _ _ _

theorem popItem_keyOf (s : MemState α) (m : Nat) :
    keyOf (popItem s).1.arena m = keyOf s.arena m := keyOf_modifyIdx _ _ _ _

theorem popItem_valOf (s : MemState α) (m : Nat) :
    valOf (popItem s).1.arena m = valOf s.arena m := valOf_modifyIdx _ _ _ _

theorem popItem_count (s : MemState α) (x : Nat) (h : 0 < s.q.length) :
    (popItem s).1.q.count x
      + (if s.q.getD (s.q.length - 1) 0 = x then 1 else 0) = s.q.count x := by
  rw [popItem_q]
  exact count_take_last s.q x h

theorem popItem_HQ (s : MemState α) (h0 : 0 < s.q.length) (h : HQ s) :
    HQ (popItem s).1 := by
  refine ⟨?_, ?_, ?_⟩
  · intro m hm
    rw [popItem_len] at hm
    rw [popItem_arena_length, popItem_q, getD_take _ _ _ hm]
    exact h.ids m (by omega)
  · intro m hm
    rw [popItem_len] at hm
    rw [popItem_q, getD_take _ _ _ hm]
    show idxOf (modifyId s.arena (s.q.getD (s.q.length - 1) 0) _) _ = _
    rw [idxOf_modifyIdx]
    have hne : s.q.getD m 0 ≠ s.q.getD (s.q.length - 1) 0 :=
      getD_ne_of_nodup s.q m (s.q.length - 1) (by omega) (by omega) (by omega) h.nodup
    rw [if_neg (fun hc => hne hc.1)]
    exact h.idx m (by omega)
  · rw [popItem_q]
    exact (List.take_sublist _ _).nodup h.nodup

/-! ### heap.Push lemmas -/

theorem heapPush_def (s : MemState α) (id : Nat) :
    heapPush s id = up (pushItem s id) ((pushItem s id).q.length - 1) := rfl

theorem heapPush_bound (s : MemState α) (id : Nat) :
    (pushItem s id).q.length - 1 < (pushItem s id).q.length := by
  rw [pushItem_len]; omega

theorem heapPush_data (s : MemState α) (id : Nat) :
    (heapPush s id).data = s.data := by
  rw [heapPush_def]
  exact (up_sameShape _ _ (heapPush_bound s id)).1.trans (pushItem_data s id)

theorem heapPush_timer (s : MemState α) (id : Nat) :
    (heapPush s id).timer = s.timer := by
  rw [heapPush_def]
  exact (up_sameShape _ _ (heapPush_bound s id)).2.1.trans (pushItem_timer s id)

theorem heapPush_arena_length (s : MemState α) (id : Nat) :
    (heapPush s id).arena.length = s.arena.length := by
  rw [heapPush_def]
  exact (up_sameShape _ _ (heapPush_bound s id)).2.2.1.trans (pushItem_arena_length s id)

theorem heapPush_len (s : MemState α) (id : Nat) :
    (heapPush s id).q.length = s.q.length + 1 := by
  rw [heapPush_def]
  exact (up_sameShape _ _ (heapPush_bound s id)).2.2.2.1.trans (pushItem_len s id)

theorem heapPush_expOf (s : MemState α) (id m : Nat) :
    expOf (heapPush s id).arena m = expOf s.arena m := by
  rw [heapPush_def]
  exact (((up_sameShape _ _ (heapPush_bound s id)).2.2.2.2.1 m).1).trans
    (pushItem_expOf s id m)

theorem heapPush_keyOf (s : MemState α) (id m : Nat) :
    keyOf (heapPush s id).arena m = keyOf s.arena m := by
  rw [heapPush_def]
  exact (((up_sameShape _ _ (heapPush_bound s id)).2.2.2.2.1 m).2.1).trans
    (pushItem_keyOf s id m)

theorem heapPush_valOf (s : MemState α) (id m : Nat) :
    valOf (heapPush s id).arena m = valOf s.arena m := by
  rw [heapPush_def]
  exact (((up_sameShape _ _ (heapPush_bound s id)).2.2.2.2.1 m).2.2).trans
    (pushItem_valOf s id m)

theorem heapPush_count (s : MemState α) (id x : Nat) :
    (heapPush s id).q.count x = s.q.count x + (if id = x then 1 else 0) := by
  rw [heapPush_def]
  exact ((up_sameShape _ _ (heapPush_bound s id)).2.2.2.2.2 x).trans
    (pushItem_count s id x)

theorem heapPush_HQ (s : MemState α) (id : Nat) (hid : id < s.arena.length)
    (hnotin : id ∉ s.q) (h : HQ s) : HQ (heapPush s id) := by
  rw [heapPush_def]
  exact up_HQ _ _ (heapPush_bound s id) (pushItem_HQ s id hid hnotin h)

theorem heapPush_mem (s : MemState α) (id x : Nat) :
    x ∈ (heapPush s id).q ↔ x ∈ s.q ∨ x = id := by
  rw [← List.count_pos_iff, ← List.count_pos_iff, heapPush_count]
  by_cases hx : id = x
  · subst hx; simp
  · have : ¬ (x = id) := fun hh => hx hh.symm
    simp [hx, this]

/-! ### heap.Pop and heap.Remove lemmas -/

theorem heapPop_def (s : MemState α) :
    heapPop s = popItem ((down (hSwap s 0 (s.q.length - 1)) 0 (s.q.length - 1)).1) :=
  rfl

theorem heapRemove_def (s : MemState α) (i : Nat) :
    heapRemove s i =
      if i = s.q.length - 1 then popItem s
      else
        popItem
          (if i < (down (hSwap s i (s.q.length - 1)) i (s.q.length - 1)).2 then
            (down (hSwap s i (s.q.length - 1)) i (s.q.length - 1)).1
          else up (down (hSwap s i (s.q.length - 1)) i (s.q.length - 1)).1 i) :=
  rfl

theorem popItem_spec (s s2 : MemState α) (i : Nat) (hi : i < s.q.length)
    (hlen : s2.q.length = s.q.length) (hdata : s2.data = s.data)
    (htimer : s2.timer = s.timer) (halen : s2.arena.length = s.arena.length)
    (hcont : ∀ m, expOf s2.arena m = expOf s.arena m ∧
      keyOf s2.arena m = keyOf s.arena m ∧ valOf s2.arena m = valOf s.arena m)
    (hcount : ∀ x, s2.q.count x = s.q.count x)
    (hlast : s2.q.getD (s.q.length - 1) 0 = s.q.getD i 0)
    (hhq : HQ s2) :
    (popItem s2).2 = s.q.getD i 0 ∧
    (popItem s2).1.q.length = s.q.length - 1 ∧
    (popItem s2).1.data = s.data ∧
    (popItem s2).1.timer = s.timer ∧
    (popItem s2).1.arena.length = s.arena.length ∧
    (∀ m, expOf (popItem s2).1.arena m = expOf s.arena m ∧
      keyOf (popItem s2).1.arena m = keyOf s.arena m ∧
      valOf (popItem s2).1.arena m = valOf s.arena m) ∧
    (∀ x, (popItem s2).1.q.count x
      + (if s.q.getD i 0 = x then 1 else 0) = s.q.count x) ∧
    HQ (popItem s2).1 := by
  have h0 : 0 < s2.q.length := by omega
  refine ⟨?_, ?_, ?_, ?_, ?_, ?_, ?_, ?_⟩
  · rw [popItem_snd, hlen, hlast]
  · rw [popItem_len, hlen]
  · rw [popItem_data, hdata]
  · rw [popItem_timer, htimer]
  · rw [popItem_arena_length, halen]
  · intro m
    exact ⟨(popItem_expOf s2 m).trans (hcont m).1,
      (popItem_keyOf s2 m).trans (hcont m).2.1,
      (popItem_valOf s2 m).trans (hcont m).2.2⟩
  · intro x
    have := popItem_count s2 x h0
    rw [hlen, hlast] at this
    rw [← hcount x, ← this]
  · exact popItem_HQ s2 h0 hhq

theorem heapPop_spec (s : MemState α) (h0 : 0 < s.q.length) (h : HQ s) :
    (heapPop s).2 = s.q.getD 0 0 ∧
    (heapPop s).1.q.length = s.q.length - 1 ∧
    (heapPop s).1.data = s.data ∧
    (heapPop s).1.timer = s.timer ∧
    (heapPop s).1.arena.length = s.arena.length ∧
    (∀ m, expOf (heapPop s).1.arena m = expOf s.arena m ∧
      keyOf (heapPop s).1.arena m = keyOf s.arena m ∧
      valOf (heapPop s).1.arena m = valOf s.arena m) ∧
    (∀ x, (heapPop s).1.q.count x
      + (if s.q.getD 0 0 = x then 1 else 0) = s.q.count x) ∧
    HQ (heapPop s).1 := by
  rw [heapPop_def]
  have hn : s.q.length - 1 < s.q.length := by omega
  have hsw := hSwap_sameShape s 0 (s.q.length - 1) h0 hn
  have hs1len : (hSwap s 0 (s.q.length - 1)).q.length = s.q.length := hsw.2.2.2.1
  have hnle : s.q.length - 1 ≤ (hSwap s 0 (s.q.length - 1)).q.length := by omega
  have hd := down_sameShape (hSwap s 0 (s.q.length - 1)) 0 (s.q.length - 1) hnle
  refine popItem_spec s _ 0 h0 (hd.2.2.2.1.trans hs1len) (hd.1.trans hsw.1)
    (hd.2.1.trans hsw.2.1) (hd.2.2.1.trans hsw.2.2.1) ?_ ?_ ?_ ?_
  · intro m
    exact ⟨((hd.2.2.2.2.1 m).1).trans (hsw.2.2.2.2.1 m).1,
      ((hd.2.2.2.2.1 m).2.1).trans (hsw.2.2.2.2.1 m).2.1,
      ((hd.2.2.2.2.1 m).2.2).trans (hsw.2.2.2.2.1 m).2.2⟩
  · intro x
    exact ((hd.2.2.2.2.2 x).trans (hsw.2.2.2.2.2 x))
  · rw [down_getD_high _ 0 (s.q.length - 1) hnle (s.q.length - 1) (le_refl _),
      hSwap_q, lswap_getD_j s.q 0 (s.q.length - 1) h0 hn]
  · exact down_HQ _ 0 (s.q.length - 1) hnle (hSwap_HQ s 0 (s.q.length - 1) h0 hn h)

theorem heapRemove_spec (s : MemState α) (i : Nat) (hi : i < s.q.length)
    (h : HQ s) :
    (heapRemove s i).2 = s.q.getD i 0 ∧
    (heapRemove s i).1.q.length = s.q.length - 1 ∧
    (heapRemove s i).1.data = s.data ∧
    (heapRemove s i).1.timer = s.timer ∧
    (heapRemove s i).1.arena.length = s.arena.length ∧
    (∀ m, expOf (heapRemove s i).1.arena m = expOf s.arena m ∧
      keyOf (heapRemove s i).1.arena m = keyOf s.arena m ∧
      valOf (heapRemove s i).1.arena m = valOf s.arena m) ∧
    (∀ x, (heapRemove s i).1.q.count x
      + (if s.q.getD i 0 = x then 1 else 0) = s.q.count x) ∧
    HQ (heapRemove s i).1 := by
  rw [heapRemove_def]
  by_cases hb : i = s.q.length - 1
  · rw [if_pos hb]
    refine popItem_spec s s i hi rfl rfl rfl rfl (fun m => ⟨rfl, rfl, rfl⟩)
      (fun x => rfl) (by rw [hb]) h
  · rw [if_neg hb]
    have h0 : 0 < s.q.length := by omega
    have hn : s.q.length - 1 < s.q.length := by omega
    have hin : i < s.q.length - 1 := by omega
    have hsw := hSwap_sameShape s i (s.q.length - 1) hi hn
    have hs1len : (hSwap s i (s.q.length - 1)).q.length = s.q.length := hsw.2.2.2.1
    have hnle : s.q.length - 1 ≤ (hSwap s i (s.q.length - 1)).q.length := by omega
    have hd := down_sameShape (hSwap s i (s.q.length - 1)) i (s.q.length - 1) hnle
    have hdlast : (down (hSwap s i (s.q.length - 1)) i (s.q.length - 1)).1.q.getD
        (s.q.length - 1) 0 = s.q.getD i 0 := by
      rw [down_getD_high _ i (s.q.length - 1) hnle (s.q.length - 1) (le_refl _),
        hSwap_q, lswap_getD_j s.q i (s.q.length - 1) hi hn]
    have hdHQ := down_HQ _ i (s.q.length - 1) hnle
      (hSwap_HQ s i (s.q.length - 1) hi hn h)
    have hdlen : (down (hSwap s i (s.q.length - 1)) i (s.q.length - 1)).1.q.length
        = s.q.length := hd.2.2.2.1.trans hs1len
    by_cases hbr : i < (down (hSwap s i (s.q.length - 1)) i (s.q.length - 1)).2
    · rw [if_pos hbr]
      refine popItem_spec s _ i hi hdlen (hd.1.trans hsw.1) (hd.2.1.trans hsw.2.1)
        (hd.2.2.1.trans hsw.2.2.1) ?_ ?_ hdlast hdHQ
      · intro m
        exact ⟨((hd.2.2.2.2.1 m).1).trans (hsw.2.2.2.2.1 m).1,
          ((hd.2.2.2.2.1 m).2.1).trans (hsw.2.2.2.2.1 m).2.1,
          ((hd.2.2.2.2.1 m).2.2).trans (hsw.2.2.2.2.1 m).2.2⟩
      · intro x
        exact (hd.2.2.2.2.2 x).trans (hsw.2.2.2.2.2 x)
    · rw [if_neg hbr]
      have hiu : i < (down (hSwap s i (s.q.length - 1)) i (s.q.length - 1)).1.q.length := by
        omega
      have hu := up_sameShape (down (hSwap s i (s.q.length - 1)) i (s.q.length - 1)).1 i hiu
      refine popItem_spec s _ i hi (hu.2.2.2.1.trans hdlen)
        (hu.1.trans (hd.1.trans hsw.1)) (hu.2.1.trans (hd.2.1.trans hsw.2.1))
        (hu.2.2.1.trans (hd.2.2.1.trans hsw.2.2.1)) ?_ ?_ ?_
        (up_HQ _ i hiu hdHQ)
      · intro m
        exact ⟨((hu.2.2.2.2.1 m).1).trans (((hd.2.2.2.2.1 m).1).trans (hsw.2.2.2.2.1 m).1),
          ((hu.2.2.2.2.1 m).2.1).trans (((hd.2.2.2.2.1 m).2.1).trans (hsw.2.2.2.2.1 m).2.1),
          ((hu.2.2.2.2.1 m).2.2).trans (((hd.2.2.2.2.1 m).2.2).trans (hsw.2.2.2.2.1 m).2.2)⟩
      · intro x
        exact (hu.2.2.2.2.2 x).trans ((hd.2.2.2.2.2 x).trans (hsw.2.2.2.2.2 x))
      · rw [up_getD_high _ i hiu (s.q.length - 1) hin, hdlast]

/-! ### Heap-property lemmas for the sift loops -/

theorem up_heap (n : Nat) (s : MemState α) (j : Nat) :
    j < n → n ≤ s.q.length → upSafe s n j → isHeapN (up s j) n := by
  have main : ∀ (fuel n : Nat) (s : MemState α) (j : Nat),
      j < fuel → j < n → n ≤ s.q.length → upSafe s n j → isHeapN (upF fuel s j) n := by
    intro fuel
    induction fuel with
    | zero =>
      intro n s j hf _ _ _
      exact absurd hf (Nat.not_lt_zero j)
    | succ fuel ih =>
      intro n s j hf hj hn hsafe
      rw [upF_succ fuel s j]
      by_cases h1 : j = 0
      · rw [if_pos h1]
        intro a c hcc hcn
        exact hsafe.1 a c hcc hcn (by omega)
      · rw [if_neg h1]
        by_cases h2 : getE s j < getE s ((j - 1) / 2)
        · rw [if_pos h2]
          have hpj : (j - 1) / 2 < s.q.length := by omega
          have hjl : j < s.q.length := by omega
          have hplt : (j - 1) / 2 < j := by omega
          have hpc : j = 2 * ((j - 1) / 2) + 1 ∨ j = 2 * ((j - 1) / 2) + 2 := by omega
          have gchar : ∀ m, getE (hSwap s ((j - 1) / 2) j) m
              = if m = j then getE s ((j - 1) / 2)
                else if m = (j - 1) / 2 then getE s j else getE s m :=
            getE_hSwap s ((j - 1) / 2) j hpj hjl
          refine ih n (hSwap s ((j - 1) / 2) j) ((j - 1) / 2) (by omega) (by omega)
            (by rw [hSwap_q, length_lswap]; omega) ⟨?_, ?_⟩
          · intro a c hcc hcn hcne
            rw [gchar a, gchar c]
            by_cases hcj : c = j
            · have hap : a = (j - 1) / 2 := by omega
              rw [if_pos hcj, if_neg (by omega), if_pos hap]
              exact le_of_lt h2
            · rw [if_neg hcj, if_neg hcne]
              by_cases haj : a = j
              · rw [if_pos haj]
                exact hsafe.2 ((j - 1) / 2) c hpc (by omega) hcn
              · rw [if_neg haj]
                by_cases hap : a = (j - 1) / 2
                · rw [if_pos hap]
                  refine le_trans (le_of_lt h2) ?_
                  have := hsafe.1 a c hcc hcn hcj
                  rw [hap] at this
                  exact this
                · rw [if_neg hap]
                  exact hsafe.1 a c hcc hcn hcj
          · intro g c hgp hpc2 hcn
            have hgn : g ≠ j := by omega
            have hgp2 : g ≠ (j - 1) / 2 := by omega
            have hpn : (j - 1) / 2 < n := by omega
            rw [gchar g, if_neg hgn, if_neg hgp2, gchar c]
            by_cases hcj : c = j
            · rw [if_pos hcj]
              exact hsafe.1 g ((j - 1) / 2) hgp hpn (by omega)
            · rw [if_neg hcj, if_neg (by omega)]
              exact le_trans (hsafe.1 g ((j - 1) / 2) hgp hpn (by omega))
                (hsafe.1 ((j - 1) / 2) c hpc2 hcn hcj)
        · rw [if_neg h2]
          intro a c hcc hcn
          by_cases hcj : c = j
          · have hap : a = (j - 1) / 2 := by omega
            rw [hcj, hap]
            exact le_of_not_lt h2
          · exact hsafe.1 a c hcc hcn hcj
  exact fun hj hn hs => main (j + 1) n s j (Nat.lt_succ_self j) hj hn hs

theorem down_heap (s : MemState α) (i n : Nat) :
    i < n → n ≤ s.q.length → downSafe s n i → isHeapN (down s i n).1 n := by
  have main : ∀ (fuel : Nat) (s : MemState α) (i n : Nat), n - i ≤ fuel →
      i < n → n ≤ s.q.length → downSafe s n i → isHeapN (downF fuel s i n).1 n := by
    intro fuel
    induction fuel with
    | zero =>
      intro s i n hf hi _ _
      exact absurd hi (by omega)
    | succ fuel ih =>
      intro s i n hf hi hn hsafe
      rw [downF_succ fuel s i n]
      by_cases h1 : n ≤ 2 * i + 1
      · rw [if_pos h1]
        intro a c hcc hcn
        by_cases hai : a = i
        · subst hai
          exact absurd hcn (by omega)
        · exact hsafe.1 a c hcc hcn hai
      · rw [if_neg h1]
        by_cases h2 : getE s (minChild s i n) < getE s i
        · rw [if_pos h2]
          have hmcn : minChild s i n < n := minChild_lt s i n h1
          have hmci : i < minChild s i n := minChild_gt s i n
          have hil : i < s.q.length := by omega
          have hmcl : minChild s i n < s.q.length := by omega
          have hmcc : minChild s i n = 2 * i + 1 ∨ minChild s i n = 2 * i + 2 :=
            minChild_cases s i n
          have gchar : ∀ m, getE (hSwap s i (minChild s i n)) m
              = if m = minChild s i n then getE s i
                else if m = i then getE s (minChild s i n) else getE s m :=
            getE_hSwap s i (minChild s i n) hil hmcl
          refine ih (hSwap s i (minChild s i n)) (minChild s i n) n (by omega) hmcn
            (by rw [hSwap_q, length_lswap]; exact hn) ⟨?_, ?_⟩
          · intro a c hcc hcn hane
            rw [gchar a, gchar c]
            by_cases hai : a = i
            · rw [if_neg (by omega), if_pos hai]
              by_cases hcmc : c = minChild s i n
              · rw [if_pos hcmc]
                exact le_of_lt h2
              · rw [if_neg hcmc, if_neg (by omega)]
                refine getE_minChild_le s i n c ?_ hcn
                rw [← hai]
                exact hcc
            · by_cases hci : c = i
              · rw [if_neg hane, if_neg hai,
                  if_neg (show ¬ (c = minChild s i n) by omega), if_pos hci]
                refine hsafe.2 a (minChild s i n) ?_ hmcc hmcn
                rw [← hci]
                exact hcc
              · by_cases hcmc : c = minChild s i n
                · exact absurd (by omega : a = i) hai
                · rw [if_neg hane, if_neg hai, if_neg hcmc, if_neg hci]
                  exact hsafe.1 a c hcc hcn hai
          · intro g c hgmc hmcc2 hcn2
            have hgi : g = i := by omega
            rw [gchar g, gchar c, if_neg (by omega), hgi, if_pos rfl,
              if_neg (by omega), if_neg (by omega)]
            exact hsafe.1 (minChild s i n) c hmcc2 hcn2 (by omega)
        · rw [if_neg h2]
          intro a c hcc hcn
          by_cases hai : a = i
          · subst hai
            exact le_trans (le_of_not_lt h2) (getE_minChild_le s a n c hcc hcn)
          · exact hsafe.1 a c hcc hcn hai
  exact fun hi hn hs => main (n - i) s i n (le_refl _) hi hn hs

theorem down_weak (s : MemState α) (i n : Nat) (_hi : i < n)
    (hn : n ≤ s.q.length) (hsafe : downSafeW s n i) :
    ((down s i n).1 = s ∧ (down s i n).2 = i ∧
      (∀ c, (c = 2 * i + 1 ∨ c = 2 * i + 2) → c < n → getE s i ≤ getE s c)) ∨
    (i < (down s i n).2 ∧ isHeapN (down s i n).1 n) := by
  by_cases h1 : n ≤ 2 * i + 1
  · rw [down_stop1 s i n h1]
    exact Or.inl ⟨rfl, rfl, fun c hc hcn => absurd hcn (by omega)⟩
  · by_cases h2 : getE s (minChild s i n) < getE s i
    · rw [down_step s i n h1 h2]
      refine Or.inr ⟨lt_of_lt_of_le (minChild_gt s i n) (down_snd_ge _ _ _), ?_⟩
      have hmcn : minChild s i n < n := minChild_lt s i n h1
      have hmci : i < minChild s i n := minChild_gt s i n
      have hil : i < s.q.length := by omega
      have hmcl : minChild s i n < s.q.length := by omega
      have hmcc : minChild s i n = 2 * i + 1 ∨ minChild s i n = 2 * i + 2 :=
        minChild_cases s i n
      have gchar : ∀ m, getE (hSwap s i (minChild s i n)) m
          = if m = minChild s i n then getE s i
            else if m = i then getE s (minChild s i n) else getE s m :=
        getE_hSwap s i (minChild s i n) hil hmcl
      refine down_heap _ (minChild s i n) n hmcn
        (by rw [hSwap_q, length_lswap]; exact hn) ⟨?_, ?_⟩
      · intro a c hcc hcn hane
        rw [gchar a, gchar c]
        by_cases hai : a = i
        · rw [if_neg (by omega), if_pos hai]
          by_cases hcmc : c = minChild s i n
          · rw [if_pos hcmc]
            exact le_of_lt h2
          · rw [if_neg hcmc, if_neg (by omega)]
            refine getE_minChild_le s i n c ?_ hcn
            rw [← hai]
            exact hcc
        · by_cases hci : c = i
          · rw [if_neg hane, if_neg hai,
              if_neg (show ¬ (c = minChild s i n) by omega), if_pos hci]
            refine hsafe.2 a (minChild s i n) ?_ hmcc hmcn
            rw [← hci]
            exact hcc
          · by_cases hcmc : c = minChild s i n
            · exact absurd (by omega : a = i) hai
            · rw [if_neg hane, if_neg hai, if_neg hcmc, if_neg hci]
              exact hsafe.1 a c hcc hcn hai hci
      · intro g c hgmc hmcc2 hcn2
        have hgi : g = i := by omega
        rw [gchar g, gchar c, if_neg (by omega), hgi, if_pos rfl,
          if_neg (by omega), if_neg (by omega)]
        exact hsafe.1 (minChild s i n) c hmcc2 hcn2 (by omega) (by omega)
    · rw [down_stop2 s i n h1 h2]
      exact Or.inl ⟨rfl, rfl, fun c hc hcn =>
        le_trans (le_of_not_lt h2) (getE_minChild_le s i n c hc hcn)⟩

theorem getE_pushItem_lt (s : MemState α) (id m : Nat) (hm : m < s.q.length) :
    getE (pushItem s id) m = getE s m := by
  unfold getE
  rw [pushItem_q, List.getD_append _ _ _ _ hm, pushItem_expOf]

theorem getE_pushItem_last (s : MemState α) (id : Nat) :
    getE (pushItem s id) s.q.length = expOf s.arena id := by
  unfold getE
  rw [pushItem_q, getD_append_last, pushItem_expOf]

theorem getE_popItem (s : MemState α) (m : Nat) (hm : m < s.q.length - 1) :
    getE (popItem s).1 m = getE s m := by
  unfold getE
  rw [popItem_q, getD_take _ _ _ hm, popItem_expOf]

theorem popItem_heap (s : MemState α) (h : isHeapN s (s.q.length - 1)) :
    HeapOk (popItem s).1 := by
  intro a c hcc hcn
  rw [popItem_len] at hcn
  rw [getE_popItem s a (by omega), getE_popItem s c hcn]
  exact h a c hcc hcn

theorem heapPush_heap (s : MemState α) (id : Nat) (h : HeapOk s) :
    HeapOk (heapPush s id) := by
  rw [heapPush_def]
  have hb := heapPush_bound s id
  have hlen : (up (pushItem s id) ((pushItem s id).q.length - 1)).q.length
      = s.q.length + 1 := (up_sameShape _ _ hb).2.2.2.1.trans (pushItem_len s id)
  unfold HeapOk
  rw [hlen]
  have hj : (pushItem s id).q.length - 1 = s.q.length := by
    rw [pushItem_len]
    omega
  rw [hj]
  refine up_heap (s.q.length + 1) (pushItem s id) s.q.length (by omega)
    (by rw [pushItem_len]) ⟨?_, ?_⟩
  · intro a c hcc hcn hcne
    have hcl : c < s.q.length := by omega
    rw [getE_pushItem_lt s id a (by omega), getE_pushItem_lt s id c hcl]
    exact h a c hcc hcl
  · intro g c hgl hlc hcn
    exact absurd hcn (by omega)

theorem heapPop_heap (s : MemState α) (h0 : 0 < s.q.length) (h : HeapOk s) :
    HeapOk (heapPop s).1 := by
  rw [heapPop_def]
  have hn : s.q.length - 1 < s.q.length := by omega
  have hs1len : (hSwap s 0 (s.q.length - 1)).q.length = s.q.length := by
    rw [hSwap_q, length_lswap]
  have hnle : s.q.length - 1 ≤ (hSwap s 0 (s.q.length - 1)).q.length := by omega
  have hdlen : (down (hSwap s 0 (s.q.length - 1)) 0 (s.q.length - 1)).1.q.length
      = s.q.length :=
    ((down_sameShape _ 0 (s.q.length - 1) hnle).2.2.2.1).trans hs1len
  apply popItem_heap
  rw [hdlen]
  by_cases hz : s.q.length - 1 = 0
  · rw [hz]
    intro a c hcc hcn
    exact absurd hcn (by omega)
  · have gchar : ∀ m, getE (hSwap s 0 (s.q.length - 1)) m
        = if m = s.q.length - 1 then getE s 0
          else if m = 0 then getE s (s.q.length - 1) else getE s m :=
      getE_hSwap s 0 (s.q.length - 1) h0 hn
    refine down_heap _ 0 (s.q.length - 1) (by omega) hnle ⟨?_, ?_⟩
    · intro a c hcc hcn hane
      rw [gchar a, gchar c, if_neg (by omega), if_neg hane,
        if_neg (by omega), if_neg (by omega)]
      exact h a c hcc (by omega)
    · intro g c hg0 hc0 hcn
      exact absurd hg0 (by omega)

theorem heapRemove_heap (s : MemState α) (i : Nat) (hi : i < s.q.length)
    (h : HeapOk s) : HeapOk (heapRemove s i).1 := by
  rw [heapRemove_def]
  by_cases hb : i = s.q.length - 1
  · rw [if_pos hb]
    exact popItem_heap s (fun a c hcc hcn => h a c hcc (by omega))
  · rw [if_neg hb]
    have h0 : 0 < s.q.length := by omega
    have hn : s.q.length - 1 < s.q.length := by omega
    have hin : i < s.q.length - 1 := by omega
    have hs1len : (hSwap s i (s.q.length - 1)).q.length = s.q.length := by
      rw [hSwap_q, length_lswap]
    have hnle : s.q.length - 1 ≤ (hSwap s i (s.q.length - 1)).q.length := by omega
    have gchar : ∀ m, getE (hSwap s i (s.q.length - 1)) m
        = if m = s.q.length - 1 then getE s i
          else if m = i then getE s (s.q.length - 1) else getE s m :=
      getE_hSwap s i (s.q.length - 1) hi hn
    have hsafe : downSafeW (hSwap s i (s.q.length - 1)) (s.q.length - 1) i := by
      constructor
      · intro a c hcc hcn hane hcne
        rw [gchar a, gchar c, if_neg (by omega), if_neg hane,
          if_neg (by omega), if_neg hcne]
        exact h a c hcc (by omega)
      · intro g c hgi hic hcn
        rw [gchar g, gchar c, if_neg (by omega), if_neg (by omega),
          if_neg (by omega), if_neg (by omega)]
        exact le_trans (h g i hgi (by omega)) (h i c hic (by omega))
    rcases down_weak (hSwap s i (s.q.length - 1)) i (s.q.length - 1) hin hnle hsafe
      with ⟨hseq, heq2, hbreak⟩ | ⟨hgt, hheap⟩
    · rw [if_neg (by rw [heq2]; omega)]
      apply popItem_heap
      rw [hseq]
      have hiu : i < (hSwap s i (s.q.length - 1)).q.length := by omega
      have hul : (up (hSwap s i (s.q.length - 1)) i).q.length = s.q.length :=
        ((up_sameShape _ i hiu).2.2.2.1).trans hs1len
      rw [hul]
      refine up_heap (s.q.length - 1) _ i hin hnle ⟨?_, ?_⟩
      · intro a c hcc hcn hcne
        by_cases hai : a = i
        · rw [hai]
          exact hbreak c (by rw [← hai]; exact hcc) hcn
        · rw [gchar a, gchar c, if_neg (by omega), if_neg hai,
            if_neg (by omega), if_neg hcne]
          exact h a c hcc (by omega)
      · intro g c hgi hic hcn
        rw [gchar g, gchar c, if_neg (by omega), if_neg (by omega),
          if_neg (by omega), if_neg (by omega)]
        exact le_trans (h g i hgi (by omega)) (h i c hic (by omega))
    · rw [if_pos hgt]
      apply popItem_heap
      have hdlen : (down (hSwap s i (s.q.length - 1)) i (s.q.length - 1)).1.q.length
          = s.q.length :=
        ((down_sameShape _ i (s.q.length - 1) hnle).2.2.2.1).trans hs1len
      rw [hdlen]
      exact hheap

theorem isHeapN_root_le (s : MemState α) (n : Nat) (h : isHeapN s n) :
    ∀ i, i < n → getE s 0 ≤ getE s i := by
  intro i
  induction i using Nat.strong_induction_on with
  | _ i ih =>
    intro hi
    by_cases h0 : i = 0
    · rw [h0]
    · exact le_trans (ih ((i - 1) / 2) (by omega) (by omega))
        (h ((i - 1) / 2) i (by omega) hi)

/-! ### Removal membership and well-formedness corollaries -/

theorem getD_mem (l : List Nat) (i : Nat) (h : i < l.length) : l.getD i 0 ∈ l := by
  rw [List.getD_eq_getElem _ _ h]
  exact List.getElem_mem h

theorem mem_remove_char (q q' : List Nat) (r : Nat) (hnd : q.Nodup) (hr : r ∈ q)
    (hcnt : ∀ x, q'.count x + (if r = x then 1 else 0) = q.count x) :
    ∀ x, x ∈ q' ↔ x ∈ q ∧ x ≠ r := by
  intro x
  rw [← List.count_pos_iff, ← List.count_pos_iff]
  have h1 := hcnt x
  by_cases hxr : x = r
  · subst hxr
    rw [if_pos rfl] at h1
    have hone : q.count x = 1 := List.count_eq_one_of_mem hnd hr
    have h2 : q'.count x = 0 := by omega
    simp [h2]
  · rw [if_neg (fun hh => hxr hh.symm), Nat.add_zero] at h1
    rw [h1]
    simp [hxr]

theorem heapPop_mem (s : MemState α) (h0 : 0 < s.q.length) (h : HQ s) (x : Nat) :
    x ∈ (heapPop s).1.q ↔ x ∈ s.q ∧ x ≠ s.q.getD 0 0 :=
  mem_remove_char s.q (heapPop s).1.q (s.q.getD 0 0) h.nodup
    (getD_mem s.q 0 h0) (heapPop_spec s h0 h).2.2.2.2.2.2.1 x

theorem heapRemove_mem (s : MemState α) (i : Nat) (hi : i < s.q.length)
    (h : HQ s) (x : Nat) :
    x ∈ (heapRemove s i).1.q ↔ x ∈ s.q ∧ x ≠ s.q.getD i 0 :=
  mem_remove_char s.q (heapRemove s i).1.q (s.q.getD i 0) h.nodup
    (getD_mem s.q i hi) (heapRemove_spec s i hi h).2.2.2.2.2.2.1 x

theorem WF_HQ (s : MemState α) (h : WF s) : HQ s := ⟨h.ids, h.idx, h.nodup⟩

theorem mem_q_lt (s : MemState α) (h : HQ s) {id : Nat} (hm : id ∈ s.q) :
    id < s.arena.length := by
  rcases List.mem_iff_getElem.mp hm with ⟨p, hp, hep⟩
  have := h.ids p hp
  rw [List.getD_eq_getElem _ _ hp, hep] at this
  exact this

theorem mem_q_pos (s : MemState α) (h : HQ s) {id : Nat} (hm : id ∈ s.q) :
    ∃ p, p < s.q.length ∧ s.q.getD p 0 = id ∧ idxOf s.arena id = (p : Int) := by
  rcases List.mem_iff_getElem.mp hm with ⟨p, hp, hep⟩
  have hgd : s.q.getD p 0 = id := by rw [List.getD_eq_getElem _ _ hp, hep]
  refine ⟨p, hp, hgd, ?_⟩
  have := h.idx p hp
  rw [hgd] at this
  exact this

theorem WF_lockstep (s : MemState α) (h : WF s) (k : String) :
    (mapGet s.data k).isSome ↔ k ∈ heapKeys s := by
  constructor
  · intro hs
    rcases Option.isSome_iff_exists.mp hs with ⟨id, hid⟩
    rcases h.d2q k id hid with ⟨hm, hk⟩
    exact List.mem_map.mpr ⟨id, hm, hk⟩
  · intro hk
    rcases List.mem_map.mp hk with ⟨id, hm, hkeq⟩
    rw [← hkeq, h.q2d id hm]
    rfl

theorem WF_heapKeys_nodup (s : MemState α) (h : WF s) : (heapKeys s).Nodup := by
  refine List.Nodup.map_on ?_ h.nodup
  intro x hx y hy hxy
  have h1 := h.q2d x hx
  have h2 := h.q2d y hy
  rw [hxy, h2] at h1
  exact (Option.some_inj.mp h1).symm

/-! ### Facade operation helper lemmas -/

theorem resetCleanupTimer_data (s : MemState α) (now : Int) :
    (resetCleanupTimer s now).data = s.data := by
  unfold resetCleanupTimer
  split
  · rfl
  · dsimp only
    split <;> rfl

theorem resetCleanupTimer_q (s : MemState α) (now : Int) :
    (resetCleanupTimer s now).q = s.q := by
  unfold resetCleanupTimer
  split
  · rfl
  · dsimp only
    split <;> rfl

theorem resetCleanupTimer_arena (s : MemState α) (now : Int) :
    (resetCleanupTimer s now).arena = s.arena := by
  unfold resetCleanupTimer
  split
  · rfl
  · dsimp only
    split <;> rfl

theorem branch_data (s3 : MemState α) (now : Int) (c : Prop) [Decidable c] :
    (if c then resetCleanupTimer s3 now else s3).data = s3.data := by
  split
  · exact resetCleanupTimer_data s3 now
  · rfl

theorem branch_q (s3 : MemState α) (now : Int) (c : Prop) [Decidable c] :
    (if c then resetCleanupTimer s3 now else s3).q = s3.q := by
  split
  · exact resetCleanupTimer_q s3 now
  · rfl

theorem branch_arena (s3 : MemState α) (now : Int) (c : Prop) [Decidable c] :
    (if c then resetCleanupTimer s3 now else s3).arena = s3.arena := by
  split
  · exact resetCleanupTimer_arena s3 now
  · rfl

theorem WF_of_parts (s s' : MemState α) (hq : s'.q = s.q) (hd : s'.data = s.data)
    (ha : s'.arena = s.arena) (h : WF s) : WF s' := by
  refine ⟨?_, ?_, ?_, ?_, ?_, ?_⟩
  · rw [hq, ha]; exact h.ids
  · rw [hq, ha]; exact h.idx
  · rw [hq]; exact h.nodup
  · rw [hd]; exact h.dkeys
  · rw [hd, hq, ha]; exact h.d2q
  · rw [hq, hd, ha]; exact h.q2d

theorem HeapOk_of_parts (s s' : MemState α) (hq : s'.q = s.q)
    (ha : s'.arena = s.arena) (h : HeapOk s) : HeapOk s' := by
  unfold HeapOk isHeapN getE
  rw [hq, ha]
  exact h

theorem appendFresh_WF (s : MemState α) (it : Item α) (h : WF s) :
    WF { s with arena := s.arena ++ [it] } := by
  have hlen : ({ s with arena := s.arena ++ [it] } : MemState α).arena.length
      = s.arena.length + 1 := by simp
  refine ⟨?_, ?_, h.nodup, h.dkeys, ?_, ?_⟩
  · intro i hi
    show s.q.getD i 0 < (s.arena ++ [it]).length
    have := h.ids i hi
    simp only [List.length_append, List.length_singleton]
    omega
  · intro i hi
    show idxOf (s.arena ++ [it]) (s.q.getD i 0) = (i : Int)
    rw [idxOf_append, if_neg (by have := h.ids i hi; omega)]
    exact h.idx i hi
  · intro k id hk
    rcases h.d2q k id hk with ⟨hm, hkey⟩
    refine ⟨hm, ?_⟩
    show keyOf (s.arena ++ [it]) id = k
    rw [keyOf_append, if_neg (by have := mem_q_lt s (WF_HQ s h) hm; omega)]
    exact hkey
  · intro id hm
    show mapGet s.data (keyOf (s.arena ++ [it]) id) = some id
    rw [keyOf_append, if_neg (by have := mem_q_lt s (WF_HQ s h) hm; omega)]
    exact h.q2d id hm

theorem appendFresh_getE (s : MemState α) (it : Item α) (hq : HQ s) (m : Nat)
    (hm : m < s.q.length) :
    getE { s with arena := s.arena ++ [it] } m = getE s m := by
  unfold getE
  show expOf (s.arena ++ [it]) (s.q.getD m 0) = _
  rw [expOf_append, if_neg (by have := hq.ids m hm; omega)]

theorem appendFresh_HeapOk (s : MemState α) (it : Item α) (hq : HQ s)
    (h : HeapOk s) : HeapOk { s with arena := s.arena ++ [it] } := by
  intro a c hcc hcn
  have hcl : c < s.q.length := hcn
  rw [appendFresh_getE s it hq a (by omega), appendFresh_getE s it hq c hcl]
  exact h a c hcc hcl

theorem setval_tail (s s1 : MemState α) (key : String) (v : α) (ev : Int)
    (hWF : WF s)
    (h1data : s1.data = s.data)
    (h1alen : s1.arena.length = s.arena.length + 1)
    (h1exp : ∀ m, expOf s1.arena m
      = if m = s.arena.length then ev else expOf s.arena m)
    (h1key : ∀ m, keyOf s1.arena m
      = if m = s.arena.length then key else keyOf s.arena m)
    (h1val : ∀ m, valOf s1.arena m
      = if m = s.arena.length then some v else valOf s.arena m)
    (h1mem : ∀ x, x ∈ s1.q ↔ x ∈ s.q ∧ keyOf s.arena x ≠ key)
    (h1HQ : HQ s1) (h1Heap : HeapOk s1) :
    Inv (heapPush { s1 with data := mapSet s1.data key s.arena.length }
      s.arena.length) ∧
    (∀ k', mapGet (heapPush { s1 with data := mapSet s1.data key s.arena.length }
        s.arena.length).data k'
      = if k' = key then some s.arena.length else mapGet s.data k') ∧
    (∀ x, x ∈ (heapPush { s1 with data := mapSet s1.data key s.arena.length }
        s.arena.length).q
      ↔ (x ∈ s.q ∧ keyOf s.arena x ≠ key) ∨ x = s.arena.length) ∧
    (heapPush { s1 with data := mapSet s1.data key s.arena.length }
      s.arena.length).arena.length = s.arena.length + 1 ∧
    (∀ m, expOf (heapPush { s1 with data := mapSet s1.data key s.arena.length }
        s.arena.length).arena m
      = if m = s.arena.length then ev else expOf s.arena m) ∧
    (∀ m, keyOf (heapPush { s1 with data := mapSet s1.data key s.arena.length }
        s.arena.length).arena m
      = if m = s.arena.length then key else keyOf s.arena m) ∧
    (∀ m, valOf (heapPush { s1 with data := mapSet s1.data key s.arena.length }
        s.arena.length).arena m
      = if m = s.arena.length then some v else valOf s.arena m) := by
  have hq2 : ({ s1 with data := mapSet s1.data key s.arena.length } : MemState α).q
      = s1.q := rfl
  have ha2 : ({ s1 with data := mapSet s1.data key s.arena.length } : MemState α).arena
      = s1.arena := rfl
  have hNlt : s.arena.length
      < ({ s1 with data := mapSet s1.data key s.arena.length } : MemState α).arena.length := by
    rw [ha2]; omega
  have hNnotin : s.arena.length
      ∉ ({ s1 with data := mapSet s1.data key s.arena.length } : MemState α).q := by
    rw [hq2]
    intro hmem
    have hx := (h1mem _).mp hmem
    have := mem_q_lt s (WF_HQ s hWF) hx.1
    omega
  have hHQ2 : HQ ({ s1 with data := mapSet s1.data key s.arena.length } : MemState α) :=
    ⟨h1HQ.ids, h1HQ.idx, h1HQ.nodup⟩
  have hHeap2 : HeapOk ({ s1 with data := mapSet s1.data key s.arena.length } : MemState α) :=
    h1Heap
  have hq3 := heapPush_HQ _ _ hNlt hNnotin hHQ2
  have hheap3 := heapPush_heap ({ s1 with data := mapSet s1.data key s.arena.length })
    s.arena.length hHeap2
  have hdata3 : (heapPush { s1 with data := mapSet s1.data key s.arena.length }
      s.arena.length).data = mapSet s1.data key s.arena.length :=
    heapPush_data _ _
  have hmem3 := heapPush_mem ({ s1 with data := mapSet s1.data key s.arena.length })
    s.arena.length
  have hmemT : ∀ x, x ∈ (heapPush { s1 with data := mapSet s1.data key s.arena.length }
      s.arena.length).q ↔ (x ∈ s.q ∧ keyOf s.arena x ≠ key) ∨ x = s.arena.length := by
    intro x
    rw [hmem3 x, hq2, h1mem x]
  have hgetT : ∀ k', mapGet (heapPush { s1 with data := mapSet s1.data key s.arena.length }
      s.arena.length).data k' = if k' = key then some s.arena.length
        else mapGet s.data k' := by
    intro k'
    rw [hdata3]
    by_cases hk' : k' = key
    · rw [if_pos hk', hk', mapGet_mapSet_self]
    · rw [if_neg hk', mapGet_mapSet_ne s1.data key k' _ hk', h1data]
  have hexpT : ∀ m, expOf (heapPush { s1 with data := mapSet s1.data key s.arena.length }
      s.arena.length).arena m = if m = s.arena.length then ev else expOf s.arena m := by
    intro m
    rw [heapPush_expOf]
    show expOf s1.arena m = _
    exact h1exp m
  have hkeyT : ∀ m, keyOf (heapPush { s1 with data := mapSet s1.data key s.arena.length }
      s.arena.length).arena m = if m = s.arena.length then key else keyOf s.arena m := by
    intro m
    rw [heapPush_keyOf]
    show keyOf s1.arena m = _
    exact h1key m
  have hvalT : ∀ m, valOf (heapPush { s1 with data := mapSet s1.data key s.arena.length }
      s.arena.length).arena m = if m = s.arena.length then some v else valOf s.arena m := by
    intro m
    rw [heapPush_valOf]
    show valOf s1.arena m = _
    exact h1val m
  refine ⟨⟨⟨hq3.ids, hq3.idx, hq3.nodup, ?_, ?_, ?_⟩, hheap3⟩, hgetT, hmemT, ?_, hexpT,
    hkeyT, hvalT⟩
  · rw [hdata3]
    refine mapSet_keys_nodup s1.data key s.arena.length ?_
    rw [h1data]
    exact hWF.dkeys
  · intro k' id hk'
    rw [hgetT k'] at hk'
    by_cases hkk : k' = key
    · rw [if_pos hkk] at hk'
      have hid : id = s.arena.length := (Option.some_inj.mp hk').symm
      subst hid
      refine ⟨(hmemT _).mpr (Or.inr rfl), ?_⟩
      rw [hkeyT, if_pos rfl, hkk]
    · rw [if_neg hkk] at hk'
      rcases hWF.d2q k' id hk' with ⟨hmm, hkk2⟩
      have hidlt := mem_q_lt s (WF_HQ s hWF) hmm
      refine ⟨(hmemT _).mpr (Or.inl ⟨hmm, by rw [hkk2]; exact hkk⟩), ?_⟩
      rw [hkeyT, if_neg (by omega)]
      exact hkk2
  · intro id hm
    rcases (hmemT id).mp hm with ⟨hsq, hne⟩ | hN
    · have hidlt := mem_q_lt s (WF_HQ s hWF) hsq
      rw [hkeyT, if_neg (by omega), hgetT, if_neg hne]
      exact hWF.q2d id hsq
    · subst hN
      rw [hkeyT, if_pos rfl, hgetT, if_pos rfl]
  · rw [heapPush_arena_length]
    show s1.arena.length = _
    exact h1alen

theorem SetVal_eq_none (s : MemState α) (now : Int) (key : String) (v : α)
    (e : Int) (h : mapGet s.data key = none) :
    SetVal s now key v e =
      (let s0 : MemState α := { s with arena := s.arena ++ [⟨key, v, now + e, 0⟩] }
       let s3 := heapPush { s0 with data := mapSet s0.data key s.arena.length }
         s.arena.length
       if 0 < s3.q.length ∧ s3.q.getD 0 0 = s.arena.length
       then resetCleanupTimer s3 now else s3) := by
  simp only [SetVal, h]

theorem SetVal_eq_some (s : MemState α) (now : Int) (key : String) (v : α)
    (e : Int) (oldId : Nat) (h : mapGet s.data key = some oldId) :
    SetVal s now key v e =
      (let s0 : MemState α := { s with arena := s.arena ++ [⟨key, v, now + e, 0⟩] }
       let s1 := (heapRemove s0 (idxOf s0.arena oldId).toNat).1
       let s3 := heapPush { s1 with data := mapSet s1.data key s.arena.length }
         s.arena.length
       if 0 < s3.q.length ∧ s3.q.getD 0 0 = s.arena.length
       then resetCleanupTimer s3 now else s3) := by
  simp only [SetVal, h]

theorem SetVal_spec (s : MemState α) (now : Int) (key : String) (v : α) (e : Int)
    (hInv : Inv s) :
    Inv (SetVal s now key v e) ∧
    (∀ k', mapGet (SetVal s now key v e).data k'
      = if k' = key then some s.arena.length else mapGet s.data k') ∧
    (∀ x, x ∈ (SetVal s now key v e).q
      ↔ (x ∈ s.q ∧ keyOf s.arena x ≠ key) ∨ x = s.arena.length) ∧
    (SetVal s now key v e).arena.length = s.arena.length + 1 ∧
    (∀ m, expOf (SetVal s now key v e).arena m
      = if m = s.arena.length then now + e else expOf s.arena m) ∧
    (∀ m, keyOf (SetVal s now key v e).arena m
      = if m = s.arena.length then key else keyOf s.arena m) ∧
    (∀ m, valOf (SetVal s now key v e).arena m
      = if m = s.arena.length then some v else valOf s.arena m) := by
  obtain ⟨hWF, hHeap⟩ := hInv
  have h0WF := appendFresh_WF s ⟨key, v, now + e, 0⟩ hWF
  have h0HQ := WF_HQ _ h0WF
  have h0Heap := appendFresh_HeapOk s ⟨key, v, now + e, 0⟩ (WF_HQ s hWF) hHeap
  cases hm : mapGet s.data key with
  | none =>
    rw [SetVal_eq_none s now key v e hm]
    dsimp only
    have h1mem : ∀ x,
        x ∈ ({ s with arena := s.arena ++ [⟨key, v, now + e, 0⟩] } : MemState α).q
          ↔ x ∈ s.q ∧ keyOf s.arena x ≠ key := by
      intro x
      show x ∈ s.q ↔ _
      constructor
      · intro hx
        refine ⟨hx, fun hkeq => ?_⟩
        have hq2d := hWF.q2d x hx
        rw [hkeq, hm] at hq2d
        exact Option.noConfusion hq2d
      · exact fun hx => hx.1
    have htail := setval_tail s
      ({ s with arena := s.arena ++ [⟨key, v, now + e, 0⟩] }) key v (now + e) hWF
      rfl (by simp)
      (fun m => by
        show expOf (s.arena ++ [⟨key, v, now + e, 0⟩]) m = _
        rw [expOf_append])
      (fun m => by
        show keyOf (s.arena ++ [⟨key, v, now + e, 0⟩]) m = _
        rw [keyOf_append])
      (fun m => by
        show valOf (s.arena ++ [⟨key, v, now + e, 0⟩]) m = _
        rw [valOf_append])
      h1mem h0HQ h0Heap
    obtain ⟨hI3, hget3, hmem3, halen3, hexp3, hkey3, hval3⟩ := htail
    refine ⟨⟨WF_of_parts _ _ (branch_q _ _ _) (branch_data _ _ _)
      (branch_arena _ _ _) hI3.1,
      HeapOk_of_parts _ _ (branch_q _ _ _) (branch_arena _ _ _) hI3.2⟩,
      ?_, ?_, ?_, ?_, ?_, ?_⟩
    · intro k'
      rw [branch_data]
      exact hget3 k'
    · intro x
      rw [branch_q]
      exact hmem3 x
    · rw [branch_arena]
      exact halen3
    · intro m
      rw [branch_arena]
      exact hexp3 m
    · intro m
      rw [branch_arena]
      exact hkey3 m
    · intro m
      rw [branch_arena]
      exact hval3 m
  | some oldId =>
    rw [SetVal_eq_some s now key v e oldId hm]
    dsimp only
    rcases hWF.d2q key oldId hm with ⟨hmemold, hkeyold⟩
    have holdlt := mem_q_lt s (WF_HQ s hWF) hmemold
    have hmem0 : oldId ∈ ({ s with arena := s.arena ++ [⟨key, v, now + e, 0⟩] }
        : MemState α).q := hmemold
    rcases mem_q_pos _ h0HQ hmem0 with ⟨p, hp, hgd, hidx⟩
    have htn : (idxOf (s.arena ++ [⟨key, v, now + e, 0⟩]) oldId).toNat = p := by
      rw [show idxOf (s.arena ++ [⟨key, v, now + e, 0⟩]) oldId
          = idxOf ({ s with arena := s.arena ++ [⟨key, v, now + e, 0⟩] }
            : MemState α).arena oldId from rfl, hidx, Int.toNat_natCast]
    rw [htn]
    have hrs := heapRemove_spec ({ s with arena := s.arena ++ [⟨key, v, now + e, 0⟩] })
      p hp h0HQ
    have hrm := heapRemove_mem ({ s with arena := s.arena ++ [⟨key, v, now + e, 0⟩] })
      p hp h0HQ
    have hrheap := heapRemove_heap
      ({ s with arena := s.arena ++ [⟨key, v, now + e, 0⟩] }) p hp h0Heap
    have h1mem : ∀ x,
        x ∈ (heapRemove ({ s with arena := s.arena ++ [⟨key, v, now + e, 0⟩] }
          : MemState α) p).1.q ↔ x ∈ s.q ∧ keyOf s.arena x ≠ key := by
      intro x
      rw [hrm x, hgd]
      show x ∈ s.q ∧ x ≠ oldId ↔ x ∈ s.q ∧ keyOf s.arena x ≠ key
      constructor
      · rintro ⟨hx, hne⟩
        refine ⟨hx, fun hkeq => ?_⟩
        have hq2d := hWF.q2d x hx
        rw [hkeq, hm] at hq2d
        exact hne (Option.some_inj.mp hq2d).symm
      · intro hx2
        constructor
        · exact hx2.1
        · intro heq
          apply hx2.2
          rw [heq]
          exact hkeyold
    have htail := setval_tail s
      ((heapRemove ({ s with arena := s.arena ++ [⟨key, v, now + e, 0⟩] }
        : MemState α) p).1) key v (now + e) hWF
      (hrs.2.2.1)
      (by
        refine hrs.2.2.2.2.1.trans ?_
        show (s.arena ++ [(⟨key, v, now + e, 0⟩ : Item α)]).length = _
        simp)
      (fun m => by
        refine ((hrs.2.2.2.2.2.1 m).1).trans ?_
        show expOf (s.arena ++ [⟨key, v, now + e, 0⟩]) m = _
        rw [expOf_append])
      (fun m => by
        refine ((hrs.2.2.2.2.2.1 m).2.1).trans ?_
        show keyOf (s.arena ++ [⟨key, v, now + e, 0⟩]) m = _
        rw [keyOf_append])
      (fun m => by
        refine ((hrs.2.2.2.2.2.1 m).2.2).trans ?_
        show valOf (s.arena ++ [⟨key, v, now + e, 0⟩]) m = _
        rw [valOf_append])
      h1mem hrs.2.2.2.2.2.2.2 hrheap
    obtain ⟨hI3, hget3, hmem3, halen3, hexp3, hkey3, hval3⟩ := htail
    refine ⟨⟨WF_of_parts _ _ (branch_q _ _ _) (branch_data _ _ _)
      (branch_arena _ _ _) hI3.1,
      HeapOk_of_parts _ _ (branch_q _ _ _) (branch_arena _ _ _) hI3.2⟩,
      ?_, ?_, ?_, ?_, ?_, ?_⟩
    · intro k'
      rw [branch_data]
      exact hget3 k'
    · intro x
      rw [branch_q]
      exact hmem3 x
    · rw [branch_arena]
      exact halen3
    · intro m
      rw [branch_arena]
      exact hexp3 m
    · intro m
      rw [branch_arena]
      exact hkey3 m
    · intro m
      rw [branch_arena]
      exact hval3 m

theorem delBody_spec (s : MemState α) (k : String) (hInv : Inv s) :
    Inv (delBody s k) ∧
    (∀ k', mapGet (delBody s k).data k' = if k' = k then none else mapGet s.data k') ∧
    (∀ x, x ∈ (delBody s k).q ↔ x ∈ s.q ∧ keyOf s.arena x ≠ k) ∧
    (delBody s k).arena.length = s.arena.length ∧
    (∀ m, expOf (delBody s k).arena m = expOf s.arena m) ∧
    (∀ m, keyOf (delBody s k).arena m = keyOf s.arena m) ∧
    (∀ m, valOf (delBody s k).arena m = valOf s.arena m) ∧
    (delBody s k).timer = s.timer ∧
    (mapGet s.data k = none → delBody s k = s) := by
  obtain ⟨hWF, hHeap⟩ := hInv
  cases hm : mapGet s.data k with
  | none =>
    have hbe : delBody s k = s := by simp only [delBody, hm]
    rw [hbe]
    refine ⟨⟨hWF, hHeap⟩, ?_, ?_, rfl, fun m => rfl, fun m => rfl, fun m => rfl,
      rfl, fun _ => rfl⟩
    · intro k'
      by_cases hk' : k' = k
      · rw [if_pos hk', hk', hm]
      · rw [if_neg hk']
    · intro x
      constructor
      · intro hx
        refine ⟨hx, fun hkeq => ?_⟩
        have hq2d := hWF.q2d x hx
        rw [hkeq, hm] at hq2d
        exact Option.noConfusion hq2d
      · exact fun hx => hx.1
  | some id =>
    have hbe : delBody s k
        = { (heapRemove s (idxOf s.arena id).toNat).1 with
            data := mapDel (heapRemove s (idxOf s.arena id).toNat).1.data k } := by
      simp only [delBody, hm]
    rw [hbe]
    rcases hWF.d2q k id hm with ⟨hmemid, hkeyid⟩
    rcases mem_q_pos s (WF_HQ s hWF) hmemid with ⟨p, hp, hgd, hidx⟩
    have htn : (idxOf s.arena id).toNat = p := by rw [hidx, Int.toNat_natCast]
    rw [htn]
    have hrs := heapRemove_spec s p hp (WF_HQ s hWF)
    have hrm := heapRemove_mem s p hp (WF_HQ s hWF)
    have hrheap := heapRemove_heap s p hp hHeap
    have hmemc : ∀ x, x ∈ (heapRemove s p).1.q ↔ x ∈ s.q ∧ keyOf s.arena x ≠ k := by
      intro x
      rw [hrm x, hgd]
      constructor
      · rintro ⟨hx, hne⟩
        refine ⟨hx, fun hkeq => ?_⟩
        have hq2d := hWF.q2d x hx
        rw [hkeq, hm] at hq2d
        exact hne (Option.some_inj.mp hq2d).symm
      · intro hx2
        constructor
        · exact hx2.1
        · intro heq
          apply hx2.2
          rw [heq]
          exact hkeyid
    have hdata1 : (heapRemove s p).1.data = s.data := hrs.2.2.1
    have hgetc : ∀ k', mapGet (mapDel (heapRemove s p).1.data k) k'
        = if k' = k then none else mapGet s.data k' := by
      intro k'
      rw [hdata1]
      by_cases hk' : k' = k
      · rw [if_pos hk', hk']
        exact mapGet_mapDel_self s.data k hWF.dkeys
      · rw [if_neg hk']
        exact mapGet_mapDel_ne s.data k k' hk'
    have hHQ1 : HQ (heapRemove s p).1 := hrs.2.2.2.2.2.2.2
    refine ⟨⟨⟨hHQ1.ids, hHQ1.idx, hHQ1.nodup, ?_, ?_, ?_⟩, hrheap⟩,
      hgetc, hmemc, hrs.2.2.2.2.1, fun m => (hrs.2.2.2.2.2.1 m).1,
      fun m => (hrs.2.2.2.2.2.1 m).2.1, fun m => (hrs.2.2.2.2.2.1 m).2.2,
      hrs.2.2.2.1, fun hc => Option.noConfusion hc⟩
    · show ((mapDel (heapRemove s p).1.data k).map Prod.fst).Nodup
      rw [hdata1]
      exact mapDel_keys_nodup s.data k hWF.dkeys
    · intro k' id' hk'
      have hk'2 : mapGet (mapDel (heapRemove s p).1.data k) k' = some id' := hk'
      rw [hgetc k'] at hk'2
      by_cases hkk : k' = k
      · rw [if_pos hkk] at hk'2
        exact Option.noConfusion hk'2
      · rw [if_neg hkk] at hk'2
        rcases hWF.d2q k' id' hk'2 with ⟨hmm, hkey2⟩
        refine ⟨(hmemc id').mpr ⟨hmm, by rw [hkey2]; exact hkk⟩, ?_⟩
        show keyOf (heapRemove s p).1.arena id' = k'
        rw [(hrs.2.2.2.2.2.1 id').2.1]
        exact hkey2
    · intro id' hm'
      have hm'2 := (hmemc id').mp hm'
      show mapGet (mapDel (heapRemove s p).1.data k)
        (keyOf (heapRemove s p).1.arena id') = some id'
      rw [(hrs.2.2.2.2.2.1 id').2.1, hgetc, if_neg hm'2.2]
      exact hWF.q2d id' hm'2.1

theorem delFold_spec : ∀ (keys : List String) (s : MemState α), Inv s →
    Inv (keys.foldl delBody s) ∧
    (∀ k', mapGet (keys.foldl delBody s).data k'
      = if k' ∈ keys then none else mapGet s.data k') ∧
    (∀ x, x ∈ (keys.foldl delBody s).q ↔ x ∈ s.q ∧ keyOf s.arena x ∉ keys) ∧
    (keys.foldl delBody s).arena.length = s.arena.length ∧
    (∀ m, expOf (keys.foldl delBody s).arena m = expOf s.arena m) ∧
    (∀ m, keyOf (keys.foldl delBody s).arena m = keyOf s.arena m) ∧
    (∀ m, valOf (keys.foldl delBody s).arena m = valOf s.arena m) ∧
    (keys.foldl delBody s).timer = s.timer ∧
    ((∀ k ∈ keys, mapGet s.data k = none) → keys.foldl delBody s = s) := by
  intro keys
  induction keys with
  | nil =>
    intro s hInv
    refine ⟨hInv, fun k' => ?_, fun x => ?_, rfl, fun m => rfl, fun m => rfl,
      fun m => rfl, rfl, fun _ => rfl⟩
    · rw [if_neg (List.not_mem_nil k')]
      rfl
    · simp
  | cons k rest ih =>
    intro s hInv
    rw [List.foldl_cons]
    obtain ⟨hI1, hget1, hmem1, halen1, hexp1, hkey1, hval1, htimer1, hnop1⟩ :=
      delBody_spec s k hInv
    obtain ⟨hI2, hget2, hmem2, halen2, hexp2, hkey2, hval2, htimer2, hnop2⟩ :=
      ih (delBody s k) hI1
    refine ⟨hI2, ?_, ?_, halen2.trans halen1, fun m => (hexp2 m).trans (hexp1 m),
      fun m => (hkey2 m).trans (hkey1 m), fun m => (hval2 m).trans (hval1 m),
      htimer2.trans htimer1, ?_⟩
    · intro k'
      rw [hget2 k']
      by_cases hr : k' ∈ rest
      · rw [if_pos hr, if_pos (List.mem_cons_of_mem k hr)]
      · rw [if_neg hr, hget1 k']
        by_cases hk : k' = k
        · rw [if_pos hk, if_pos (by rw [hk]; exact List.mem_cons_self k rest)]
        · rw [if_neg hk, if_neg (by
            intro hc
            rcases List.mem_cons.mp hc with hc1 | hc2
            · exact hk hc1
            · exact hr hc2)]
    · intro x
      rw [hmem2 x, hmem1 x]
      constructor
      · rintro ⟨⟨hxq, hk1⟩, hk2⟩
        refine ⟨hxq, fun hc => ?_⟩
        rw [hkey1 x] at hk2
        rcases List.mem_cons.mp hc with hc1 | hc2
        · exact hk1 hc1
        · exact hk2 hc2
      · rintro ⟨hxq, hnotin⟩
        refine ⟨⟨hxq, fun hc => hnotin (by rw [hc]; exact List.mem_cons_self k rest)⟩, ?_⟩
        rw [hkey1 x]
        exact fun hc => hnotin (List.mem_cons_of_mem k hc)
    · intro habs
      have hk0 : mapGet s.data k = none := habs k (List.mem_cons_self k rest)
      have hrest : ∀ k2 ∈ rest, mapGet (delBody s k).data k2 = none := by
        intro k2 hk2
        rw [hnop1 hk0]
        exact habs k2 (List.mem_cons_of_mem k hk2)
      have hres := hnop2 hrest
      rw [hnop1 hk0] at hres
      rw [hnop1 hk0]
      exact hres

theorem Del_spec (s : MemState α) (now : Int) (keys : List String) (hInv : Inv s) :
    Inv (Del s now keys).1 ∧
    (∀ k', mapGet (Del s now keys).1.data k'
      = if k' ∈ keys then none else mapGet s.data k') ∧
    (∀ x, x ∈ (Del s now keys).1.q ↔ x ∈ s.q ∧ keyOf s.arena x ∉ keys) ∧
    (Del s now keys).1.arena.length = s.arena.length ∧
    (∀ m, expOf (Del s now keys).1.arena m = expOf s.arena m) ∧
    (∀ m, keyOf (Del s now keys).1.arena m = keyOf s.arena m) ∧
    (∀ m, valOf (Del s now keys).1.arena m = valOf s.arena m) ∧
    ((∀ k ∈ keys, mapGet s.data k = none) →
      (Del s now keys).1.data = s.data ∧ (Del s now keys).1.q = s.q ∧
        (Del s now keys).1.arena = s.arena) ∧
    (Del s now keys).2 = none := by
  obtain ⟨hI, hget, hmem, halen, hexp, hkey, hval, htimer, hnop⟩ :=
    delFold_spec keys s hInv
  have hD1 : (Del s now keys).1
      = if 0 < (keys.foldl delBody s).q.length
        then resetCleanupTimer (keys.foldl delBody s) now
        else keys.foldl delBody s := rfl
  have hdq : (Del s now keys).1.q = (keys.foldl delBody s).q := by
    rw [hD1]
    split
    · exact resetCleanupTimer_q _ _
    · rfl
  have hdd : (Del s now keys).1.data = (keys.foldl delBody s).data := by
    rw [hD1]
    split
    · exact resetCleanupTimer_data _ _
    · rfl
  have hda : (Del s now keys).1.arena = (keys.foldl delBody s).arena := by
    rw [hD1]
    split
    · exact resetCleanupTimer_arena _ _
    · rfl
  refine ⟨⟨WF_of_parts _ _ hdq hdd hda hI.1, HeapOk_of_parts _ _ hdq hda hI.2⟩,
    ?_, ?_, ?_, ?_, ?_, ?_, ?_, rfl⟩
  · intro k'
    rw [hdd]
    exact hget k'
  · intro x
    rw [hdq]
    exact hmem x
  · rw [hda]
    exact halen
  · intro m
    rw [hda]
    exact hexp m
  · intro m
    rw [hda]
    exact hkey m
  · intro m
    rw [hda]
    exact hval m
  · intro habs
    rw [hdd, hdq, hda, hnop habs]
    exact ⟨rfl, rfl, rfl⟩

theorem Expire_eq_some (s : MemState α) (now : Int) (key : String) (e : Int)
    (id : Nat) (h : mapGet s.data key = some id) :
    Expire s now key e =
      (let s1 := (heapRemove s (idxOf s.arena id).toNat).1
       let s2 := { s1 with
         arena := modifyId s1.arena id (fun it => { it with expiration := now + e }) }
       resetCleanupTimer (heapPush s2 id) now) := by
  simp only [Expire, h]

theorem Expire_spec (s : MemState α) (now : Int) (k : String) (e : Int)
    (hInv : Inv s) :
    Inv (Expire s now k e) ∧
    (Expire s now k e).data = s.data ∧
    (∀ x, x ∈ (Expire s now k e).q ↔ x ∈ s.q) ∧
    (Expire s now k e).arena.length = s.arena.length ∧
    (∀ m, keyOf (Expire s now k e).arena m = keyOf s.arena m) ∧
    (∀ m, valOf (Expire s now k e).arena m = valOf s.arena m) ∧
    (mapGet s.data k = none → Expire s now k e = s) ∧
    (∀ id, mapGet s.data k = some id →
      ∀ m, expOf (Expire s now k e).arena m
        = if m = id then now + e else expOf s.arena m) := by
  obtain ⟨hWF, hHeap⟩ := hInv
  cases hm : mapGet s.data k with
  | none =>
    have hbe : Expire s now k e = s := by simp only [Expire, hm]
    rw [hbe]
    exact ⟨⟨hWF, hHeap⟩, rfl, fun x => Iff.rfl, rfl, fun m => rfl, fun m => rfl,
      fun _ => rfl, fun id hid => Option.noConfusion hid⟩
  | some id =>
    rw [Expire_eq_some s now k e id hm]
    dsimp only
    rcases hWF.d2q k id hm with ⟨hmemid, hkeyid⟩
    have hidlt := mem_q_lt s (WF_HQ s hWF) hmemid
    rcases mem_q_pos s (WF_HQ s hWF) hmemid with ⟨p, hp, hgd, hidx⟩
    have htn : (idxOf s.arena id).toNat = p := by rw [hidx, Int.toNat_natCast]
    rw [htn]
    have hrs := heapRemove_spec s p hp (WF_HQ s hWF)
    have hrm := heapRemove_mem s p hp (WF_HQ s hWF)
    have hrheap := heapRemove_heap s p hp hHeap
    have hHQ1 : HQ (heapRemove s p).1 := hrs.2.2.2.2.2.2.2
    have hnotin1 : id ∉ (heapRemove s p).1.q := by
      rw [hrm id, hgd]
      exact fun hc => hc.2 rfl
    -- the expiration-modified state
    have ha2len : (modifyId (heapRemove s p).1.arena id
        (fun it => { it with expiration := now + e })).length
        = (heapRemove s p).1.arena.length := length_modifyId _ _ _
    have hidlt1 : id < (heapRemove s p).1.arena.length := by
      rw [hrs.2.2.2.2.1]
      exact hidlt
    have hexp2 : ∀ m, expOf (modifyId (heapRemove s p).1.arena id
        (fun it => { it with expiration := now + e })) m
        = if m = id then now + e else expOf (heapRemove s p).1.arena m := by
      intro m
      rw [expOf_modifyExp]
      by_cases hmid : m = id
      · rw [if_pos ⟨hmid, hidlt1⟩, if_pos hmid]
      · rw [if_neg (fun hc => hmid hc.1), if_neg hmid]
    have hHQ2 : HQ ({ (heapRemove s p).1 with
        arena := modifyId (heapRemove s p).1.arena id
          (fun it => { it with expiration := now + e }) } : MemState α) := by
      refine ⟨?_, ?_, hHQ1.nodup⟩
      · intro i hi
        show (heapRemove s p).1.q.getD i 0
          < (modifyId (heapRemove s p).1.arena id _).length
        rw [ha2len]
        exact hHQ1.ids i hi
      · intro i hi
        show idxOf (modifyId (heapRemove s p).1.arena id _)
          ((heapRemove s p).1.q.getD i 0) = (i : Int)
        rw [idxOf_modifyExp]
        exact hHQ1.idx i hi
    have hocc : ∀ i, i < (heapRemove s p).1.q.length →
        (heapRemove s p).1.q.getD i 0 ≠ id := by
      intro i hi hc
      exact hnotin1 (hc ▸ getD_mem _ i hi)
    have hHeap2 : HeapOk ({ (heapRemove s p).1 with
        arena := modifyId (heapRemove s p).1.arena id
          (fun it => { it with expiration := now + e }) } : MemState α) := by
      intro a c hcc hcn
      have hgE : ∀ i, i < (heapRemove s p).1.q.length →
          getE ({ (heapRemove s p).1 with
            arena := modifyId (heapRemove s p).1.arena id
              (fun it => { it with expiration := now + e }) } : MemState α) i
          = getE (heapRemove s p).1 i := by
        intro i hi
        unfold getE
        show expOf (modifyId (heapRemove s p).1.arena id _)
          ((heapRemove s p).1.q.getD i 0) = _
        rw [hexp2, if_neg (hocc i hi)]
      have hcl : c < (heapRemove s p).1.q.length := hcn
      rw [hgE a (by omega), hgE c hcl]
      exact hrheap a c hcc hcl
    have hpre1 : id < ({ (heapRemove s p).1 with
        arena := modifyId (heapRemove s p).1.arena id
          (fun it => { it with expiration := now + e }) } : MemState α).arena.length := by
      show id < (modifyId (heapRemove s p).1.arena id _).length
      rw [ha2len]
      exact hidlt1
    have hpre2 : id ∉ ({ (heapRemove s p).1 with
        arena := modifyId (heapRemove s p).1.arena id
          (fun it => { it with expiration := now + e }) } : MemState α).q := hnotin1
    have hq3 := heapPush_HQ _ id hpre1 hpre2 hHQ2
    have hheap3 := heapPush_heap _ id hHeap2
    have hmem3 := heapPush_mem ({ (heapRemove s p).1 with
      arena := modifyId (heapRemove s p).1.arena id
        (fun it => { it with expiration := now + e }) } : MemState α) id
    have hmemE : ∀ x, x ∈ (heapPush ({ (heapRemove s p).1 with
        arena := modifyId (heapRemove s p).1.arena id
          (fun it => { it with expiration := now + e }) } : MemState α) id).q
        ↔ x ∈ s.q := by
      intro x
      rw [hmem3 x]
      show x ∈ (heapRemove s p).1.q ∨ x = id ↔ _
      rw [hrm x, hgd]
      constructor
      · rintro (⟨hx, _⟩ | hx)
        · exact hx
        · rw [hx]
          exact hmemid
      · intro hx
        by_cases hxid : x = id
        · exact Or.inr hxid
        · exact Or.inl ⟨hx, hxid⟩
    have hdataE : (heapPush ({ (heapRemove s p).1 with
        arena := modifyId (heapRemove s p).1.arena id
          (fun it => { it with expiration := now + e }) } : MemState α) id).data
        = s.data := by
      rw [heapPush_data]
      exact hrs.2.2.1
    have hkeyE : ∀ m, keyOf (heapPush ({ (heapRemove s p).1 with
        arena := modifyId (heapRemove s p).1.arena id
          (fun it => { it with expiration := now + e }) } : MemState α) id).arena m
        = keyOf s.arena m := by
      intro m
      rw [heapPush_keyOf]
      show keyOf (modifyId (heapRemove s p).1.arena id _) m = _
      rw [keyOf_modifyExp]
      exact (hrs.2.2.2.2.2.1 m).2.1
    have hvalE : ∀ m, valOf (heapPush ({ (heapRemove s p).1 with
        arena := modifyId (heapRemove s p).1.arena id
          (fun it => { it with expiration := now + e }) } : MemState α) id).arena m
        = valOf s.arena m := by
      intro m
      rw [heapPush_valOf]
      show valOf (modifyId (heapRemove s p).1.arena id _) m = _
      rw [valOf_modifyExp]
      exact (hrs.2.2.2.2.2.1 m).2.2
    have hexpE : ∀ m, expOf (heapPush ({ (heapRemove s p).1 with
        arena := modifyId (heapRemove s p).1.arena id
          (fun it => { it with expiration := now + e }) } : MemState α) id).arena m
        = if m = id then now + e else expOf s.arena m := by
      intro m
      rw [heapPush_expOf]
      show expOf (modifyId (heapRemove s p).1.arena id _) m = _
      rw [hexp2]
      by_cases hmid : m = id
      · rw [if_pos hmid, if_pos hmid]
      · rw [if_neg hmid, if_neg hmid]
        exact (hrs.2.2.2.2.2.1 m).1
    have halenE : (heapPush ({ (heapRemove s p).1 with
        arena := modifyId (heapRemove s p).1.arena id
          (fun it => { it with expiration := now + e }) } : MemState α) id).arena.length
        = s.arena.length := by
      rw [heapPush_arena_length]
      show (modifyId (heapRemove s p).1.arena id _).length = _
      rw [ha2len]
      exact hrs.2.2.2.2.1
    have hWFE : WF (heapPush ({ (heapRemove s p).1 with
        arena := modifyId (heapRemove s p).1.arena id
          (fun it => { it with expiration := now + e }) } : MemState α) id) := by
      refine ⟨hq3.ids, hq3.idx, hq3.nodup, ?_, ?_, ?_⟩
      · rw [hdataE]
        exact hWF.dkeys
      · intro k' id' hk'
        rw [hdataE] at hk'
        rcases hWF.d2q k' id' hk' with ⟨hmm, hkk⟩
        refine ⟨(hmemE id').mpr hmm, ?_⟩
        rw [hkeyE]
        exact hkk
      · intro id' hm'
        rw [hdataE, hkeyE]
        exact hWF.q2d id' ((hmemE id').mp hm')
    refine ⟨⟨WF_of_parts _ _ (resetCleanupTimer_q _ _) (resetCleanupTimer_data _ _)
      (resetCleanupTimer_arena _ _) hWFE,
      HeapOk_of_parts _ _ (resetCleanupTimer_q _ _) (resetCleanupTimer_arena _ _)
        hheap3⟩, ?_, ?_, ?_, ?_, ?_, ?_, ?_⟩
    · rw [resetCleanupTimer_data]
      exact hdataE
    · intro x
      rw [resetCleanupTimer_q]
      exact hmemE x
    · rw [resetCleanupTimer_arena]
      exact halenE
    · intro m
      rw [resetCleanupTimer_arena]
      exact hkeyE m
    · intro m
      rw [resetCleanupTimer_arena]
      exact hvalE m
    · intro hc
      exact Option.noConfusion hc
    · intro id' hid' m
      have hids : id' = id := (Option.some_inj.mp hid').symm
      rw [resetCleanupTimer_arena, hids]
      exact hexpE m

theorem cleanupLoop_spec : ∀ (fuel : Nat) (s : MemState α) (now : Int), Inv s →
    s.q.length ≤ fuel →
    Inv (cleanupLoop s now fuel) ∧
    (∀ k id, mapGet s.data k = some id →
      mapGet (cleanupLoop s now fuel).data k
        = if expOf s.arena id ≤ now then none else some id) ∧
    (∀ k, mapGet s.data k = none → mapGet (cleanupLoop s now fuel).data k = none) ∧
    (∀ x, x ∈ (cleanupLoop s now fuel).q ↔ x ∈ s.q ∧ now < expOf s.arena x) ∧
    (cleanupLoop s now fuel).arena.length = s.arena.length ∧
    (∀ m, expOf (cleanupLoop s now fuel).arena m = expOf s.arena m) ∧
    (∀ m, keyOf (cleanupLoop s now fuel).arena m = keyOf s.arena m) ∧
    (∀ m, valOf (cleanupLoop s now fuel).arena m = valOf s.arena m) ∧
    (cleanupLoop s now fuel).timer = s.timer := by
  intro fuel
  induction fuel with
  | zero =>
    intro s now hInv hlen
    have hq0 : s.q.length = 0 := by omega
    have hqnil : s.q = [] := List.length_eq_zero.mp hq0
    refine ⟨hInv, ?_, fun k h => h, ?_, rfl, fun m => rfl, fun m => rfl,
      fun m => rfl, rfl⟩
    · intro k id hk
      rcases hInv.1.d2q k id hk with ⟨hmm, _⟩
      rw [hqnil] at hmm
      exact absurd hmm (List.not_mem_nil id)
    · intro x
      show x ∈ s.q ↔ x ∈ s.q ∧ _
      rw [hqnil]
      simp
  | succ fuel ih =>
    intro s now hInv hlen
    by_cases hq0 : s.q.length = 0
    · have he : cleanupLoop s now (fuel + 1) = s := by
        simp only [cleanupLoop]
        rw [if_pos hq0]
      rw [he]
      have hqnil : s.q = [] := List.length_eq_zero.mp hq0
      refine ⟨hInv, ?_, fun k h => h, ?_, rfl, fun m => rfl, fun m => rfl,
        fun m => rfl, rfl⟩
      · intro k id hk
        rcases hInv.1.d2q k id hk with ⟨hmm, _⟩
        rw [hqnil] at hmm
        exact absurd hmm (List.not_mem_nil id)
      · intro x
        rw [hqnil]
        simp
    · have h0 : 0 < s.q.length := by omega
      by_cases hroot : now < expOf s.arena (s.q.getD 0 0)
      · have he : cleanupLoop s now (fuel + 1) = s := by
          simp only [cleanupLoop]
          rw [if_neg hq0, if_pos hroot]
        rw [he]
        have hmin : ∀ x, x ∈ s.q → now < expOf s.arena x := by
          intro x hx
          rcases mem_q_pos s (WF_HQ s hInv.1) hx with ⟨p, hp, hgd, _⟩
          have hle := isHeapN_root_le s s.q.length hInv.2 p hp
          unfold getE at hle
          rw [hgd] at hle
          exact lt_of_lt_of_le hroot hle
        refine ⟨hInv, ?_, fun k h => h, ?_, rfl, fun m => rfl, fun m => rfl,
          fun m => rfl, rfl⟩
        · intro k id hk
          rcases hInv.1.d2q k id hk with ⟨hmm, _⟩
          rw [if_neg (not_le.mpr (hmin id hmm))]
          exact hk
        · intro x
          constructor
          · intro hx
            exact ⟨hx, hmin x hx⟩
          · exact fun hx => hx.1
      · have he : cleanupLoop s now (fuel + 1)
            = cleanupLoop ({ (heapPop s).1 with
                data := mapDel (heapPop s).1.data
                  (keyOf (heapPop s).1.arena (s.q.getD 0 0)) }) now fuel := by
          simp only [cleanupLoop]
          rw [if_neg hq0, if_neg hroot]
        rw [he]
        have hexp0 : expOf s.arena (s.q.getD 0 0) ≤ now := not_lt.mp hroot
        have hps := heapPop_spec s h0 (WF_HQ s hInv.1)
        have hpm := heapPop_mem s h0 (WF_HQ s hInv.1)
        have hpheap := heapPop_heap s h0 hInv.2
        have hHQ1 : HQ (heapPop s).1 := hps.2.2.2.2.2.2.2
        have hkeq : keyOf (heapPop s).1.arena (s.q.getD 0 0)
            = keyOf s.arena (s.q.getD 0 0) := (hps.2.2.2.2.2.1 _).2.1
        have hrootmem : s.q.getD 0 0 ∈ s.q := getD_mem s.q 0 h0
        have hq2droot := hInv.1.q2d _ hrootmem
        have hdata1 : (heapPop s).1.data = s.data := hps.2.2.1
        have hTdata : ({ (heapPop s).1 with
            data := mapDel (heapPop s).1.data
              (keyOf (heapPop s).1.arena (s.q.getD 0 0)) } : MemState α).data
            = mapDel s.data (keyOf s.arena (s.q.getD 0 0)) := by
          show mapDel (heapPop s).1.data (keyOf (heapPop s).1.arena (s.q.getD 0 0)) = _
          rw [hkeq, hdata1]
        have hTget : ∀ k', mapGet ({ (heapPop s).1 with
            data := mapDel (heapPop s).1.data
              (keyOf (heapPop s).1.arena (s.q.getD 0 0)) } : MemState α).data k'
            = if k' = keyOf s.arena (s.q.getD 0 0) then none else mapGet s.data k' := by
          intro k'
          rw [hTdata]
          by_cases hk' : k' = keyOf s.arena (s.q.getD 0 0)
          · rw [if_pos hk', hk']
            exact mapGet_mapDel_self s.data _ hInv.1.dkeys
          · rw [if_neg hk']
            exact mapGet_mapDel_ne s.data _ k' hk'
        have hTmem : ∀ x, x ∈ ({ (heapPop s).1 with
            data := mapDel (heapPop s).1.data
              (keyOf (heapPop s).1.arena (s.q.getD 0 0)) } : MemState α).q
            ↔ x ∈ s.q ∧ x ≠ s.q.getD 0 0 := by
          intro x
          exact hpm x
        have hTInv : Inv ({ (heapPop s).1 with
            data := mapDel (heapPop s).1.data
              (keyOf (heapPop s).1.arena (s.q.getD 0 0)) } : MemState α) := by
          refine ⟨⟨hHQ1.ids, hHQ1.idx, hHQ1.nodup, ?_, ?_, ?_⟩, hpheap⟩
          · show ((mapDel (heapPop s).1.data
              (keyOf (heapPop s).1.arena (s.q.getD 0 0))).map Prod.fst).Nodup
            rw [hkeq, hdata1]
            exact mapDel_keys_nodup s.data _ hInv.1.dkeys
          · intro k' id' hk'
            rw [hTget k'] at hk'
            by_cases hkk : k' = keyOf s.arena (s.q.getD 0 0)
            · rw [if_pos hkk] at hk'
              exact Option.noConfusion hk'
            · rw [if_neg hkk] at hk'
              rcases hInv.1.d2q k' id' hk' with ⟨hmm, hkey'⟩
              have hne : id' ≠ s.q.getD 0 0 := by
                intro hc
                rw [hc] at hkey'
                exact hkk hkey'.symm
              refine ⟨(hTmem id').mpr ⟨hmm, hne⟩, ?_⟩
              show keyOf (heapPop s).1.arena id' = k'
              rw [(hps.2.2.2.2.2.1 id').2.1]
              exact hkey'
          · intro id' hm'
            rcases (hTmem id').mp hm' with ⟨hmm, hne⟩
            show mapGet (mapDel (heapPop s).1.data
              (keyOf (heapPop s).1.arena (s.q.getD 0 0)))
              (keyOf (heapPop s).1.arena id') = some id'
            rw [hkeq, hdata1, (hps.2.2.2.2.2.1 id').2.1]
            have hkne : keyOf s.arena id' ≠ keyOf s.arena (s.q.getD 0 0) := by
              intro hc
              have h1 := hInv.1.q2d id' hmm
              rw [hc, hq2droot] at h1
              exact hne (Option.some_inj.mp h1).symm
            rw [mapGet_mapDel_ne s.data _ _ hkne]
            exact hInv.1.q2d id' hmm
        have hTlen : ({ (heapPop s).1 with
            data := mapDel (heapPop s).1.data
              (keyOf (heapPop s).1.arena (s.q.getD 0 0)) } : MemState α).q.length
            ≤ fuel := by
          show (heapPop s).1.q.length ≤ fuel
          rw [hps.2.1]
          omega
        obtain ⟨ihInv, ihget, ihnone, ihmem, ihalen, ihexp, ihkey, ihval, ihtimer⟩ :=
          ih _ now hTInv hTlen
        have hTexp : ∀ m, expOf ({ (heapPop s).1 with
            data := mapDel (heapPop s).1.data
              (keyOf (heapPop s).1.arena (s.q.getD 0 0)) } : MemState α).arena m
            = expOf s.arena m := fun m => (hps.2.2.2.2.2.1 m).1
        refine ⟨ihInv, ?_, ?_, ?_, ?_, ?_, ?_, ?_, ?_⟩
        · intro k id hk
          by_cases hkk : k = keyOf s.arena (s.q.getD 0 0)
          · have hid0 : id = s.q.getD 0 0 := by
              rw [hkk, hq2droot] at hk
              exact (Option.some_inj.mp hk).symm
            rw [hid0, if_pos hexp0]
            refine ihnone k ?_
            rw [hTget k, if_pos hkk]
          · have hk2 : mapGet ({ (heapPop s).1 with
                data := mapDel (heapPop s).1.data
                  (keyOf (heapPop s).1.arena (s.q.getD 0 0)) } : MemState α).data k
                = some id := by
              rw [hTget k, if_neg hkk]
              exact hk
            have := ihget k id hk2
            rw [hTexp id] at this
            exact this
        · intro k hk
          have hkk : k ≠ keyOf s.arena (s.q.getD 0 0) := by
            intro hc
            rw [hc, hq2droot] at hk
            exact Option.noConfusion hk
          refine ihnone k ?_
          rw [hTget k, if_neg hkk]
          exact hk
        · intro x
          rw [ihmem x, hTmem x, hTexp x]
          constructor
          · rintro ⟨⟨hx, _⟩, hlt⟩
            exact ⟨hx, hlt⟩
          · rintro ⟨hx, hlt⟩
            refine ⟨⟨hx, ?_⟩, hlt⟩
            intro hc
            rw [hc] at hlt
            omega
        · rw [ihalen]
          show (heapPop s).1.arena.length = _
          exact hps.2.2.2.2.1
        · intro m
          rw [ihexp m]
          exact hTexp m
        · intro m
          rw [ihkey m]
          exact (hps.2.2.2.2.2.1 m).2.1
        · intro m
          rw [ihval m]
          exact (hps.2.2.2.2.2.1 m).2.2
        · rw [ihtimer]
          exact hps.2.2.2.1

theorem getE_reset (s : MemState α) (now : Int) (m : Nat) :
    getE (resetCleanupTimer s now) m = getE s m := by
  unfold getE
  rw [resetCleanupTimer_arena, resetCleanupTimer_q]

theorem cleanupExpired_spec (s : MemState α) (now : Int) (hInv : Inv s) :
    Inv (cleanupExpired s now) ∧
    (∀ k id, mapGet s.data k = some id →
      mapGet (cleanupExpired s now).data k
        = if expOf s.arena id ≤ now then none else some id) ∧
    (∀ k, mapGet s.data k = none → mapGet (cleanupExpired s now).data k = none) ∧
    (∀ x, x ∈ (cleanupExpired s now).q ↔ x ∈ s.q ∧ now < expOf s.arena x) ∧
    (cleanupExpired s now).arena.length = s.arena.length ∧
    (∀ m, expOf (cleanupExpired s now).arena m = expOf s.arena m) ∧
    (∀ m, keyOf (cleanupExpired s now).arena m = keyOf s.arena m) ∧
    (∀ m, valOf (cleanupExpired s now).arena m = valOf s.arena m) ∧
    ((cleanupExpired s now).q.length = 0 → (cleanupExpired s now).timer = now + hour) ∧
    (0 < (cleanupExpired s now).q.length →
      (cleanupExpired s now).timer = getE (cleanupExpired s now) 0 ∧
      now < getE (cleanupExpired s now) 0) := by
  obtain ⟨lInv, lget, lnone, lmem, lalen, lexp, lkey, lval, ltimer⟩ :=
    cleanupLoop_spec s.q.length s now hInv (le_refl _)
  have hrq := resetCleanupTimer_q (cleanupLoop s now s.q.length) now
  have hrd := resetCleanupTimer_data (cleanupLoop s now s.q.length) now
  have hra := resetCleanupTimer_arena (cleanupLoop s now s.q.length) now
  have hce : cleanupExpired s now
      = resetCleanupTimer (cleanupLoop s now s.q.length) now := rfl
  rw [hce]
  refine ⟨⟨WF_of_parts _ _ hrq hrd hra lInv.1, HeapOk_of_parts _ _ hrq hra lInv.2⟩,
    ?_, ?_, ?_, ?_, ?_, ?_, ?_, ?_, ?_⟩
  · intro k id hk
    rw [hrd]
    exact lget k id hk
  · intro k hk
    rw [hrd]
    exact lnone k hk
  · intro x
    rw [hrq]
    exact lmem x
  · rw [hra]
    exact lalen
  · intro m
    rw [hra]
    exact lexp m
  · intro m
    rw [hra]
    exact lkey m
  · intro m
    rw [hra]
    exact lval m
  · intro hq0
    rw [hrq] at hq0
    unfold resetCleanupTimer
    rw [if_pos hq0]
  · intro hq0
    rw [hrq] at hq0
    have hrootmem : (cleanupLoop s now s.q.length).q.getD 0 0
        ∈ (cleanupLoop s now s.q.length).q := getD_mem _ 0 hq0
    have hlt : now < getE (cleanupLoop s now s.q.length) 0 := by
      have hm := (lmem _).mp hrootmem
      unfold getE
      rw [lexp]
      exact hm.2
    constructor
    · unfold resetCleanupTimer
      rw [if_neg (by omega)]
      dsimp only
      rw [if_neg (by omega)]
      rfl
    · rw [getE_reset]
      exact hlt

/-! ### Reachability and the read paths -/

theorem Inv_init (t0 : Int) : Inv (initState t0 : MemState α) := by
  refine ⟨⟨?_, ?_, ?_, ?_, ?_, ?_⟩, ?_⟩
  · intro i hi
    simp [initState] at hi
  · intro i hi
    simp [initState] at hi
  · exact List.nodup_nil
  · simp [initState]
  · intro k id hk
    exact Option.noConfusion hk
  · intro id hid
    exact absurd hid (List.not_mem_nil id)
  · intro a c hcc hcn
    simp [initState] at hcn

theorem Inv_applyOp (s : MemState α) (op : COp α) (h : Inv s) : Inv (applyOp s op) := by
  cases op with
  | setv now k v t => exact (SetVal_spec s now k v t h).1
  | del now ks => exact (Del_spec s now ks h).1
  | expire now k t => exact (Expire_spec s now k t h).1
  | reap now => exact (cleanupExpired_spec s now h).1

theorem Inv_foldl (ops : List (COp α)) : ∀ s : MemState α, Inv s →
    Inv (ops.foldl applyOp s) := by
  induction ops with
  | nil => exact fun s h => h
  | cons op rest ih =>
    intro s h
    rw [List.foldl_cons]
    exact ih (applyOp s op) (Inv_applyOp s op h)

theorem Inv_runOps (t0 : Int) (ops : List (COp α)) : Inv (runOps t0 ops) :=
  Inv_foldl ops (initState t0) (Inv_init t0)

theorem GetVal_char (s : MemState α) (now : Int) (k : String) (id : Nat)
    (hk : mapGet s.data k = some id) (hid : id < s.arena.length) :
    GetVal s now k = if expOf s.arena id < now then none else valOf s.arena id := by
  unfold GetVal expOf valOf
  rw [hk]
  dsimp only
  rw [List.getElem?_eq_getElem hid]
  dsimp only
  rfl

theorem GetVal_absent (s : MemState α) (now : Int) (k : String)
    (hk : mapGet s.data k = none) : GetVal s now k = none := by
  unfold GetVal
  rw [hk]

theorem getVal_after_set (t0 : Int) (ops : List (COp α)) (now : Int) (k : String)
    (v : α) (t tread : Int) :
    GetVal (SetVal (runOps t0 ops) now k v t) tread k
      = if now + t < tread then none else some v := by
  obtain ⟨hInv', hget, hmem, halen, hexp, hkey, hval⟩ :=
    SetVal_spec (runOps t0 ops) now k v t (Inv_runOps t0 ops)
  have hk : mapGet (SetVal (runOps t0 ops) now k v t).data k
      = some (runOps t0 ops).arena.length := by
    rw [hget k, if_pos rfl]
  have hid : (runOps t0 ops).arena.length
      < (SetVal (runOps t0 ops) now k v t).arena.length := by
    rw [halen]
    omega
  rw [GetVal_char _ tread k _ hk hid, hexp, hval, if_pos rfl, if_pos rfl]

theorem existsCount_go (s : MemState α) (now : Int) : ∀ (keys : List String) (c : Int),
    keys.foldl (fun c key =>
      match mapGet s.data key with
      | none => c
      | some id => if expOf s.arena id < now then c else c + 1) c
      = c + ((keys.filter (fun k => hit s now k)).length : Int) := by
  intro keys
  induction keys with
  | nil =>
    intro c
    simp
  | cons k rest ih =>
    intro c
    rw [List.foldl_cons]
    cases hm : mapGet s.data k with
    | none =>
      have hh : hit s now k = false := by unfold hit; rw [hm]
      rw [List.filter_cons, if_neg (by rw [hh]; exact Bool.false_ne_true), ih c]
    | some id =>
      dsimp only
      by_cases he : expOf s.arena id < now
      · have hh : hit s now k = false := by
          unfold hit
          rw [hm]
          simp [he]
        rw [if_pos he, List.filter_cons,
          if_neg (by rw [hh]; exact Bool.false_ne_true)]
        exact ih c
      · have hh : hit s now k = true := by
          unfold hit
          rw [hm]
          simp [he]
        rw [if_neg he, List.filter_cons, if_pos (by rw [hh])]
        rw [ih (c + 1), List.length_cons]
        push_cast
        omega

theorem existsCount_char (s : MemState α) (now : Int) (keys : List String) :
    ExistsCount s now keys
      = ((keys.filter (fun k => hit s now k)).length : Int) := by
  have h := existsCount_go s now keys 0
  unfold ExistsCount
  rw [h]
  omega

/-! ### Timer re-arm lemmas -/

theorem resetCleanupTimer_timer (s : MemState α) (now : Int) :
    (resetCleanupTimer s now).timer
      = if s.q.length = 0 then now + hour
        else if getE s 0 < now then now else getE s 0 := by
  unfold resetCleanupTimer
  by_cases h : s.q.length = 0
  · rw [if_pos h, if_pos h]
  · rw [if_neg h, if_neg h]
    dsimp only
    by_cases h2 : getE s 0 < now
    · rw [if_pos h2, if_pos h2]
    · rw [if_neg h2, if_neg h2]

theorem reset_timer_congr (s s' : MemState α) (now : Int) (hq : s'.q = s.q)
    (ha : s'.arena = s.arena) :
    (resetCleanupTimer s' now).timer = (resetCleanupTimer s now).timer := by
  rw [resetCleanupTimer_timer, resetCleanupTimer_timer, hq]
  unfold getE expOf
  rw [hq, ha]

theorem reset_fresh (X base : MemState α) (now : Int)
    (hX : X = resetCleanupTimer base now) :
    X.timer = (resetCleanupTimer X now).timer := by
  subst hX
  exact (reset_timer_congr base (resetCleanupTimer base now) now
    (resetCleanupTimer_q _ _) (resetCleanupTimer_arena _ _)).symm

/-- Both branches of the facade pattern
`if <new item at root> then resetCleanupTimer s3 now else s3` leave a
fresh timer whenever the root test in fact holds of the result. -/
theorem branch_fresh (s3 : MemState α) (now : Int) (id : Nat)
    (h : (if 0 < s3.q.length ∧ s3.q.getD 0 0 = id
          then resetCleanupTimer s3 now else s3).q.getD 0 0 = id)
    (hlen : 0 < (if 0 < s3.q.length ∧ s3.q.getD 0 0 = id
          then resetCleanupTimer s3 now else s3).q.length) :
    (if 0 < s3.q.length ∧ s3.q.getD 0 0 = id
      then resetCleanupTimer s3 now else s3).timer
      = (resetCleanupTimer (if 0 < s3.q.length ∧ s3.q.getD 0 0 = id
          then resetCleanupTimer s3 now else s3) now).timer := by
  by_cases hc : 0 < s3.q.length ∧ s3.q.getD 0 0 = id
  · rw [if_pos hc]
    exact reset_fresh _ s3 now rfl
  · rw [if_neg hc] at h hlen
    exact absurd ⟨hlen, h⟩ hc

/-! ### Claim theorems -/

/-- C1 counterexample: a key set at instant 0 with ttl 5 is read back at
instant 5 = t0 + t, a read time that the claim says must observe the key
as absent; `GetVal` nevertheless returns the stored value, because the
code misses only reads strictly past the expiration instant
(`time.Now().After`). -/
theorem C1_counterexample :
    (0 : Int) + 5 ≤ 5 ∧
    GetVal (SetVal (initState 0 : MemState String) 0 "k" "v" 5) 5 "k"
      = some "v" := by
  decide

/-- C1 (amended): for every key k stored by set(k, v, t) at time t0 on any
reachable cache state, get(k) returns the stored value v for any read at a
time less than or equal to t0 + t, and returns absent for any read at a
time strictly greater than t0 + t. -/
theorem C1_theorem (t0 : Int) (ops : List (COp α)) (now : Int) (k : String)
    (v : α) (t tread : Int) :
    GetVal (SetVal (runOps t0 ops) now k v t) tread k
      = if now + t < tread then none else some v :=
  getVal_after_set t0 ops now k v t tread

/-- C2: after every sequence of set, delete, renew-expiry, and reap
operations starting from the empty cache, a key is present in the key
index exactly when it is the key of an entry in the expiry heap. -/
theorem C2_theorem (t0 : Int) (ops : List (COp α)) (k : String) :
    (mapGet (runOps t0 ops).data k).isSome ↔ k ∈ heapKeys (runOps t0 ops) :=
  WF_lockstep _ (Inv_runOps t0 ops).1 k

/-- C3: after every sequence of operations from the empty cache, the heap
array satisfies the min-heap property: the expiration at position i is at
most the expiration at its children 2i+1 and 2i+2 whenever they exist. -/
theorem C3_theorem (t0 : Int) (ops : List (COp α)) (i j : Nat)
    (hc : j = 2 * i + 1 ∨ j = 2 * i + 2) (hj : j < (runOps t0 ops).q.length) :
    getE (runOps t0 ops) i ≤ getE (runOps t0 ops) j :=
  (Inv_runOps t0 ops).2 i j hc hj

/-- C3 witness: the heap property instantiated on a concrete three-entry
cache at the root and its left child. -/
theorem C3_witness :
    ((1 : Nat) = 2 * 0 + 1 ∨ (1 : Nat) = 2 * 0 + 2) ∧
    1 < (runOps (0 : Int) [COp.setv 0 "a" "x" 30, COp.setv 1 "b" "x" 10,
      COp.setv 2 "c" "x" 20] : MemState String).q.length ∧
    getE (runOps (0 : Int) [COp.setv 0 "a" "x" 30, COp.setv 1 "b" "x" 10,
      COp.setv 2 "c" "x" 20] : MemState String) 0
      ≤ getE (runOps (0 : Int) [COp.setv 0 "a" "x" 30, COp.setv 1 "b" "x" 10,
        COp.setv 2 "c" "x" 20] : MemState String) 1 :=
  ⟨by decide, by decide,
    C3_theorem 0 [COp.setv 0 "a" "x" 30, COp.setv 1 "b" "x" 10,
      COp.setv 2 "c" "x" 20] 0 1 (by decide) (by decide)⟩

/-- C5: setting the same key twice leaves exactly one entry for that key
in the heap, and the key index maps it to an item holding the latest
value and an expiry computed from the second ttl. -/
theorem C5_theorem (t0 : Int) (ops : List (COp α)) (now1 now2 : Int)
    (k : String) (v1 v2 : α) (t1 t2 : Int) :
    (heapKeys (SetVal (SetVal (runOps t0 ops) now1 k v1 t1) now2 k v2 t2)).count k
      = 1 ∧
    ∃ id, mapGet (SetVal (SetVal (runOps t0 ops) now1 k v1 t1) now2 k v2 t2).data k
        = some id ∧
      keyOf (SetVal (SetVal (runOps t0 ops) now1 k v1 t1) now2 k v2 t2).arena id = k ∧
      valOf (SetVal (SetVal (runOps t0 ops) now1 k v1 t1) now2 k v2 t2).arena id
        = some v2 ∧
      expOf (SetVal (SetVal (runOps t0 ops) now1 k v1 t1) now2 k v2 t2).arena id
        = now2 + t2 := by
  have hInv1 := (SetVal_spec (runOps t0 ops) now1 k v1 t1 (Inv_runOps t0 ops)).1
  obtain ⟨hInv2, hget, hmem, halen, hexp, hkey, hval⟩ :=
    SetVal_spec (SetVal (runOps t0 ops) now1 k v1 t1) now2 k v2 t2 hInv1
  have hk : mapGet (SetVal (SetVal (runOps t0 ops) now1 k v1 t1) now2 k v2 t2).data k
      = some (SetVal (runOps t0 ops) now1 k v1 t1).arena.length := by
    rw [hget, if_pos rfl]
  constructor
  · refine List.count_eq_one_of_mem (WF_heapKeys_nodup _ hInv2.1) ?_
    refine (WF_lockstep _ hInv2.1 k).mp ?_
    rw [hk]
    rfl
  · exact ⟨_, hk, by rw [hkey, if_pos rfl], by rw [hval, if_pos rfl],
      by rw [hexp, if_pos rfl]⟩


/-- C4 counterexample: deleting the only key leaves the queue empty but
does not re-arm the timer.  After storing "a" with expiration instant 5
and deleting it at instant 1, the structure is empty yet the timer still
holds the stale deadline 5 rather than the idle deadline `1 + hour` that
the claim requires of an empty structure. -/
theorem C4_counterexample :
    (Del (runOps (0 : Int) [COp.setv 0 "a" "x" 5] : MemState String) 1
        ["a"]).1.q.length = 0 ∧
    ¬ (Del (runOps (0 : Int) [COp.setv 0 "a" "x" 5] : MemState String) 1
        ["a"]).1.timer = 1 + hour := by
  decide

/-- C4 (amended): an operation leaves a fresh timer — equal to what an
immediate re-arm at the same instant would produce — exactly under the
conditions the code tests before calling `resetCleanupTimer`: `SetVal`
when the new item ended at the heap root, `Del` when the queue is still
non-empty afterwards, `Expire` on a present key, and the reap step
always.  Outside these conditions the timer can go stale, as the
counterexample shows. -/
theorem C4_theorem (t0 : Int) (ops : List (COp α)) (now : Int) :
    (∀ (k : String) (v : α) (t : Int),
      (SetVal (runOps t0 ops) now k v t).q.getD 0 0 = (runOps t0 ops).arena.length →
      (SetVal (runOps t0 ops) now k v t).timer
        = (resetCleanupTimer (SetVal (runOps t0 ops) now k v t) now).timer) ∧
    (∀ keys, 0 < (Del (runOps t0 ops) now keys).1.q.length →
      (Del (runOps t0 ops) now keys).1.timer
        = (resetCleanupTimer (Del (runOps t0 ops) now keys).1 now).timer) ∧
    (∀ (k : String) (id : Nat) (t : Int), mapGet (runOps t0 ops).data k = some id →
      (Expire (runOps t0 ops) now k t).timer
        = (resetCleanupTimer (Expire (runOps t0 ops) now k t) now).timer) ∧
    (cleanupExpired (runOps t0 ops) now).timer
      = (resetCleanupTimer (cleanupExpired (runOps t0 ops) now) now).timer := by
  refine ⟨?_, ?_, ?_, ?_⟩
  · intro k v t hroot
    obtain ⟨_, _, hmem, _, _, _, _⟩ :=
      SetVal_spec (runOps t0 ops) now k v t (Inv_runOps t0 ops)
    have hlen : 0 < (SetVal (runOps t0 ops) now k v t).q.length :=
      List.length_pos_of_mem ((hmem _).mpr (Or.inr rfl))
    cases hm : mapGet (runOps t0 ops).data k with
    | none =>
      rw [SetVal_eq_none (runOps t0 ops) now k v t hm] at hroot hlen ⊢
      dsimp only at hroot hlen ⊢
      exact branch_fresh _ now _ hroot hlen
    | some oldId =>
      rw [SetVal_eq_some (runOps t0 ops) now k v t oldId hm] at hroot hlen ⊢
      dsimp only at hroot hlen ⊢
      exact branch_fresh _ now _ hroot hlen
  · intro keys hlen
    have hD1 : (Del (runOps t0 ops) now keys).1
        = if 0 < (keys.foldl delBody (runOps t0 ops)).q.length
          then resetCleanupTimer (keys.foldl delBody (runOps t0 ops)) now
          else keys.foldl delBody (runOps t0 ops) := rfl
    rw [hD1] at hlen ⊢
    by_cases hc : 0 < (keys.foldl delBody (runOps t0 ops)).q.length
    · rw [if_pos hc]
      exact reset_fresh _ _ now rfl
    · rw [if_neg hc] at hlen
      exact absurd hlen hc
  · intro k id t hm
    rw [Expire_eq_some (runOps t0 ops) now k t id hm]
    dsimp only
    exact reset_fresh _ _ now rfl
  · exact reset_fresh _ _ now rfl

/-- C4 witness: deleting one of two stored keys keeps the queue
non-empty, and the amended theorem then yields a fresh timer. -/
theorem C4_witness :
    0 < (Del (runOps (0 : Int) [COp.setv 0 "a" "x" 5, COp.setv 1 "b" "x" 7]
        : MemState String) 2 ["a"]).1.q.length ∧
    (Del (runOps (0 : Int) [COp.setv 0 "a" "x" 5, COp.setv 1 "b" "x" 7]
        : MemState String) 2 ["a"]).1.timer
      = (resetCleanupTimer (Del (runOps (0 : Int) [COp.setv 0 "a" "x" 5,
          COp.setv 1 "b" "x" 7] : MemState String) 2 ["a"]).1 2).timer :=
  ⟨by decide,
    (C4_theorem 0 [COp.setv 0 "a" "x" 5, COp.setv 1 "b" "x" 7] 2).2.1 ["a"]
      (by decide)⟩

/-- C6: the reap step at instant `now` keeps exactly the entries whose
expiration is strictly after `now` (popping every due minimum and
deleting its key from the map too); afterwards the timer holds the idle
deadline when the queue emptied, and otherwise the root expiration,
which is still in the future and is the minimum over all surviving heap
positions. -/
theorem C6_theorem (t0 : Int) (ops : List (COp α)) (now : Int) :
    (∀ x, x ∈ (cleanupExpired (runOps t0 ops) now).q
      ↔ x ∈ (runOps t0 ops).q ∧ now < expOf (runOps t0 ops).arena x) ∧
    (∀ k id, mapGet (runOps t0 ops).data k = some id →
      mapGet (cleanupExpired (runOps t0 ops) now).data k
        = if expOf (runOps t0 ops).arena id ≤ now then none else some id) ∧
    ((cleanupExpired (runOps t0 ops) now).q.length = 0 →
      (cleanupExpired (runOps t0 ops) now).timer = now + hour) ∧
    (0 < (cleanupExpired (runOps t0 ops) now).q.length →
      (cleanupExpired (runOps t0 ops) now).timer
          = getE (cleanupExpired (runOps t0 ops) now) 0 ∧
      now < getE (cleanupExpired (runOps t0 ops) now) 0 ∧
      ∀ m, m < (cleanupExpired (runOps t0 ops) now).q.length →
        getE (cleanupExpired (runOps t0 ops) now) 0
          ≤ getE (cleanupExpired (runOps t0 ops) now) m) := by
  obtain ⟨hInv, hget, _, hmem, _, _, _, _, hempty, hfull⟩ :=
    cleanupExpired_spec (runOps t0 ops) now (Inv_runOps t0 ops)
  refine ⟨hmem, hget, hempty, fun hpos => ?_⟩
  obtain ⟨ht, hlt⟩ := hfull hpos
  exact ⟨ht, hlt, fun m hm => isHeapN_root_le _ _ hInv.2 m hm⟩

/-- C6 witness: reaping at instant 10 a cache holding "a" (expires at 5)
and "b" (expires at 100) drops "a" from the map, keeps the queue
non-empty, and re-arms the timer to the root expiration. -/
theorem C6_witness :
    mapGet (runOps (0 : Int) [COp.setv 0 "a" "x" 5, COp.setv 0 "b" "x" 100]
        : MemState String).data "a" = some 0 ∧
    mapGet (cleanupExpired (runOps (0 : Int) [COp.setv 0 "a" "x" 5,
        COp.setv 0 "b" "x" 100] : MemState String) 10).data "a"
      = (if expOf (runOps (0 : Int) [COp.setv 0 "a" "x" 5,
          COp.setv 0 "b" "x" 100] : MemState String).arena 0 ≤ 10
         then none else some 0) ∧
    0 < (cleanupExpired (runOps (0 : Int) [COp.setv 0 "a" "x" 5,
        COp.setv 0 "b" "x" 100] : MemState String) 10).q.length ∧
    (cleanupExpired (runOps (0 : Int) [COp.setv 0 "a" "x" 5,
        COp.setv 0 "b" "x" 100] : MemState String) 10).timer
      = getE (cleanupExpired (runOps (0 : Int) [COp.setv 0 "a" "x" 5,
          COp.setv 0 "b" "x" 100] : MemState String) 10) 0 :=
  ⟨by decide,
    (C6_theorem 0 [COp.setv 0 "a" "x" 5, COp.setv 0 "b" "x" 100] 10).2.1 "a" 0
      (by decide),
    by decide,
    ((C6_theorem 0 [COp.setv 0 "a" "x" 5, COp.setv 0 "b" "x" 100] 10).2.2.2
      (by decide)).1⟩

/-- C7 counterexample: `SetVal` with the negative ttl −5 at instant 0
stores an entry that is present in the map yet already carries the
expiration −5, strictly before the wall-clock instant of the write: a
negative lifetime, which the claim rules out for every ttl. -/
theorem C7_counterexample :
    mapGet (SetVal (initState 0 : MemState String) 0 "k" "v" (-5)).data "k"
      = some 0 ∧
    expOf (SetVal (initState 0 : MemState String) 0 "k" "v" (-5)).arena 0 < 0 := by
  decide

/-- C7 (amended): for a non-negative ttl `t`, both `SetVal` and `Expire`
stamp the affected entry with expiration `now + t`, which is at least
the wall-clock instant `now` of the write or renewal; the unrestricted
claim fails for negative ttls, as the counterexample shows. -/
theorem C7_theorem (t0 : Int) (ops : List (COp α)) (now : Int) (k : String)
    (v : α) (t : Int) (ht : 0 ≤ t) :
    (∀ id, mapGet (SetVal (runOps t0 ops) now k v t).data k = some id →
      expOf (SetVal (runOps t0 ops) now k v t).arena id = now + t ∧
      now ≤ expOf (SetVal (runOps t0 ops) now k v t).arena id) ∧
    (∀ id, mapGet (runOps t0 ops).data k = some id →
      expOf (Expire (runOps t0 ops) now k t).arena id = now + t ∧
      now ≤ expOf (Expire (runOps t0 ops) now k t).arena id) := by
  constructor
  · intro id hid
    obtain ⟨_, hget, _, _, hexp, _, _⟩ :=
      SetVal_spec (runOps t0 ops) now k v t (Inv_runOps t0 ops)
    rw [hget k, if_pos rfl] at hid
    have hideq : id = (runOps t0 ops).arena.length := (Option.some_inj.mp hid).symm
    rw [hexp id, if_pos hideq]
    exact ⟨rfl, by omega⟩
  · intro id hid
    obtain ⟨_, _, _, _, _, _, _, hexp⟩ :=
      Expire_spec (runOps t0 ops) now k t (Inv_runOps t0 ops)
    rw [hexp id hid]
    rw [if_pos rfl]
    exact ⟨rfl, by omega⟩

/-- C7 witness: storing "k" at instant 3 with ttl 5 yields expiration
3 + 5, not before the write instant. -/
theorem C7_witness :
    (0 : Int) ≤ 5 ∧
    mapGet (SetVal (runOps (0 : Int) ([] : List (COp String))) 3 "k" "v" 5).data "k"
      = some 0 ∧
    expOf (SetVal (runOps (0 : Int) ([] : List (COp String))) 3 "k" "v" 5).arena 0
      = 3 + 5 ∧
    (3 : Int) ≤ expOf (SetVal (runOps (0 : Int) ([] : List (COp String))) 3
        "k" "v" 5).arena 0 :=
  ⟨by decide, by decide,
    ((C7_theorem 0 [] 3 "k" "v" 5 (by decide)).1 0 (by decide)).1,
    ((C7_theorem 0 [] 3 "k" "v" 5 (by decide)).1 0 (by decide)).2⟩

/-- C8: delete removes exactly the listed keys that are present — map
lookups of listed keys become `none` and heap entries survive iff their
key is not listed — deleting only absent keys leaves all three
components unchanged, and the returned error is always `nil`. -/
theorem C8_theorem (t0 : Int) (ops : List (COp α)) (now : Int)
    (keys : List String) :
    (∀ k', mapGet (Del (runOps t0 ops) now keys).1.data k'
      = if k' ∈ keys then none else mapGet (runOps t0 ops).data k') ∧
    (∀ x, x ∈ (Del (runOps t0 ops) now keys).1.q
      ↔ x ∈ (runOps t0 ops).q ∧ keyOf (runOps t0 ops).arena x ∉ keys) ∧
    ((∀ k ∈ keys, mapGet (runOps t0 ops).data k = none) →
      (Del (runOps t0 ops) now keys).1.data = (runOps t0 ops).data ∧
      (Del (runOps t0 ops) now keys).1.q = (runOps t0 ops).q ∧
      (Del (runOps t0 ops) now keys).1.arena = (runOps t0 ops).arena) ∧
    (Del (runOps t0 ops) now keys).2 = none := by
  obtain ⟨_, hget, hmem, _, _, _, _, hnop, herr⟩ :=
    Del_spec (runOps t0 ops) now keys (Inv_runOps t0 ops)
  exact ⟨hget, hmem, hnop, herr⟩

/-- C8 witness: deleting the absent key "zz" from a cache holding "a"
changes none of the three components and returns no error. -/
theorem C8_witness :
    (Del (runOps (0 : Int) [COp.setv 0 "a" "x" 5] : MemState String) 1
        ["zz"]).1.data
      = (runOps (0 : Int) [COp.setv 0 "a" "x" 5] : MemState String).data ∧
    (Del (runOps (0 : Int) [COp.setv 0 "a" "x" 5] : MemState String) 1
        ["zz"]).1.q
      = (runOps (0 : Int) [COp.setv 0 "a" "x" 5] : MemState String).q ∧
    (Del (runOps (0 : Int) [COp.setv 0 "a" "x" 5] : MemState String) 1
        ["zz"]).1.arena
      = (runOps (0 : Int) [COp.setv 0 "a" "x" 5] : MemState String).arena ∧
    (Del (runOps (0 : Int) [COp.setv 0 "a" "x" 5] : MemState String) 1
        ["zz"]).2 = none :=
  ⟨((C8_theorem 0 [COp.setv 0 "a" "x" 5] 1 ["zz"]).2.2.1 (by decide)).1,
    ((C8_theorem 0 [COp.setv 0 "a" "x" 5] 1 ["zz"]).2.2.1 (by decide)).2.1,
    ((C8_theorem 0 [COp.setv 0 "a" "x" 5] 1 ["zz"]).2.2.1 (by decide)).2.2,
    (C8_theorem 0 [COp.setv 0 "a" "x" 5] 1 ["zz"]).2.2.2⟩

/-- C9: the string facade collapses misses and stored empty strings — a
`GetVal` miss makes `Get` return `""`, and a key stored with value `""`
also reads back as `""` at every instant, before or after its expiry. -/
theorem C9_theorem (t0 : Int) (ops : List (COp String)) (now tread : Int)
    (k : String) (t : Int) :
    (GetVal (runOps t0 ops) now k = none → Get (runOps t0 ops) now k = "") ∧
    Get (SetVal (runOps t0 ops) now k "" t) tread k = "" := by
  constructor
  · intro h
    unfold Get
    rw [h]
  · unfold Get
    rw [getVal_after_set t0 ops now k "" t tread]
    by_cases hc : now + t < tread
    · rw [if_pos hc]
    · rw [if_neg hc]

/-- C9 witness: on the empty cache the missing key "k" reads as `""`,
and after storing the empty string it still reads as `""` long past its
expiry. -/
theorem C9_witness :
    GetVal (runOps (0 : Int) ([] : List (COp String))) 0 "k" = none ∧
    Get (runOps (0 : Int) ([] : List (COp String))) 0 "k" = "" ∧
    Get (SetVal (runOps (0 : Int) ([] : List (COp String))) 0 "k" "" 5) 99 "k"
      = "" :=
  ⟨by decide, (C9_theorem 0 [] 0 99 "k" 5).1 (by decide),
    (C9_theorem 0 [] 0 99 "k" 5).2⟩

/-- C10: `Exists` counts argument positions, not distinct keys: the
count equals the number of positions of the argument list whose key is
present and unexpired, so a live key listed twice counts as 2. -/
theorem C10_theorem (t0 : Int) (ops : List (COp α)) (now : Int)
    (keys : List String) (k : String) :
    ExistsCount (runOps t0 ops) now keys
      = ((keys.filter (fun k' => hit (runOps t0 ops) now k')).length : Int) ∧
    (hit (runOps t0 ops) now k = true →
      ExistsCount (runOps t0 ops) now [k, k] = 2) := by
  refine ⟨existsCount_char _ now keys, fun h => ?_⟩
  rw [existsCount_char]
  have hf : List.filter (fun k' => hit (runOps t0 ops) now k') [k, k] = [k, k] := by
    simp [List.filter_cons, h]
  rw [hf]
  rfl

/-- C10 witness: the live key "a" listed twice is counted twice. -/
theorem C10_witness :
    hit (runOps (0 : Int) [COp.setv 0 "a" "x" 5] : MemState String) 3 "a"
      = true ∧
    ExistsCount (runOps (0 : Int) [COp.setv 0 "a" "x" 5] : MemState String) 3
      ["a", "a"] = 2 :=
  ⟨by decide, (C10_theorem 0 [COp.setv 0 "a" "x" 5] 3 ["a"] "a").2 (by decide)⟩
